import Mathlib

/-!
# Verification of the envelope-encryption text-share core (`src/index.ts`)

Shallow embedding of the Cloudflare-Workers text-share service.  JS strings
are modelled as lists of Unicode scalar values (`List Nat`); byte blobs as
lists of naturals `< 256`.  The WebCrypto AES-GCM primitive is modelled as an
idealized authenticated cipher (a per-index keystream plus a perfect
authentication tag: the tag is an injective function of key, nonce and
ciphertext, so authentication succeeds exactly on honestly sealed blobs).
The hex codec, `String.prototype.match(/.{1,2}/g)`, `parseInt(·, 16)` and the
`TextEncoder`/`TextDecoder` conversions are modelled concretely from their
JS semantics; the store (D1 table `shares`) is a list of records.
-/

namespace WorkersShare

/-- A list of bytes: every element fits in 8 bits. -/
def ByteList (xs : List Nat) : Prop := ∀ b ∈ xs, b < 256

instance (xs : List Nat) : Decidable (ByteList xs) := by
  unfold ByteList; infer_instance

/-- A JS string obtained by UTF-8 decoding (as `c.req.text()` and
`TextDecoder` produce): Unicode scalar values, no lone surrogates. -/
def ValidText (s : List Nat) : Prop :=
  ∀ c ∈ s, c < 1114112 ∧ ¬(55296 ≤ c ∧ c < 57344)

instance (s : List Nat) : Decidable (ValidText s) := by
  unfold ValidText; infer_instance

/-- UTF-16 code units contributed by one scalar value; JS `String.length`
counts these (astral characters count 2). -/
def utf16Len (c : Nat) : Nat := if c < 65536 then 1 else 2

/-- Model of JS `String.prototype.length` on the scalar-value view. -/
def utf16Length (s : List Nat) : Nat := (s.map utf16Len).sum

/-- UTF-8 encoding of a single scalar value (`TextEncoder`). -/
def utf8Bytes (c : Nat) : List Nat :=
  if c < 128 then [c]
  else if c < 2048 then [192 + c / 64, 128 + c % 64]
  else if c < 65536 then [224 + c / 4096, 128 + c / 64 % 64, 128 + c % 64]
  else [240 + c / 262144, 128 + c / 4096 % 64, 128 + c / 64 % 64, 128 + c % 64]

/-- Model of `TextEncoder.encode`. -/
def utf8Encode (s : List Nat) : List Nat := (s.map utf8Bytes).flatten

/-- One step of UTF-8 decoding: given a lead byte and the remaining bytes,
the decoded scalar value (U+FFFD on malformed input) and how many further
bytes the step consumed.  (The resynchronization point after a malformed
sequence is simplified; no theorem below depends on decoding malformed bytes
beyond totality.) -/
def utf8Step (b : Nat) (rest : List Nat) : Nat × Nat :=
  if b < 128 then (b, 0)
  else if b < 194 then (65533, 0)
  else if b < 224 then
    match rest with
    | b1 :: _ =>
      if 128 ≤ b1 ∧ b1 < 192 then (64 * (b - 192) + (b1 - 128), 1) else (65533, 1)
    | [] => (65533, 0)
  else if b < 240 then
    match rest with
    | b1 :: b2 :: _ =>
      if (128 ≤ b1 ∧ b1 < 192) ∧ (128 ≤ b2 ∧ b2 < 192) then
        (4096 * (b - 224) + 64 * (b1 - 128) + (b2 - 128), 2)
      else (65533, 2)
    | _ => (65533, rest.length)
  else if b < 245 then
    match rest with
    | b1 :: b2 :: b3 :: _ =>
      if (128 ≤ b1 ∧ b1 < 192) ∧ (128 ≤ b2 ∧ b2 < 192) ∧ (128 ≤ b3 ∧ b3 < 192) then
        (262144 * (b - 240) + 4096 * (b1 - 128) + 64 * (b2 - 128) + (b3 - 128), 3)
      else (65533, 3)
    | _ => (65533, rest.length)
  else (65533, 0)

/-- Fuel-indexed UTF-8 decoding loop; `utf8Decode` supplies enough fuel. -/
def utf8DecodeGo : Nat → List Nat → List Nat
  | _, [] => []
  | 0, _ :: _ => []
  | fuel + 1, b :: rest =>
    match utf8Step b rest with
    | (v, 0) => v :: utf8DecodeGo fuel rest
    | (v, k) => v :: utf8DecodeGo fuel (rest.drop k)

/-- Model of `TextDecoder.decode` (non-fatal mode): total, and invalid byte
sequences produce the replacement character U+FFFD. -/
def utf8Decode (l : List Nat) : List Nat := utf8DecodeGo l.length l

/-- Hex digit character for a nibble, lowercase, as produced by
`x.toString(16)` for `x < 16` (`buf2hex`, src/index.ts:14-18). -/
def hexChar (n : Nat) : Nat := if n < 10 then 48 + n else 87 + n

/-- `buf2hex` (src/index.ts:14-18): each byte becomes two lowercase hex
characters (`toString(16).padStart(2, '0')`). -/
def buf2hex (bs : List Nat) : List Nat :=
  (bs.map (fun b => [hexChar (b / 16), hexChar (b % 16)])).flatten

/-- Numeric value of a hex digit character (as accepted by
`parseInt(·, 16)`): `0-9`, `a-f`, `A-F`. -/
def hexVal (c : Nat) : Option Nat :=
  if 48 ≤ c ∧ c ≤ 57 then some (c - 48)
  else if 97 ≤ c ∧ c ≤ 102 then some (c - 87)
  else if 65 ≤ c ∧ c ≤ 70 then some (c - 55)
  else none

/-- JS whitespace characters `parseInt` skips (the ones relevant to two-char
chunks). -/
def isWs (c : Nat) : Bool :=
  c = 32 ∨ c = 9 ∨ c = 10 ∨ c = 11 ∨ c = 12 ∨ c = 13 ∨ c = 160

/-- `parseInt` sign handling: returns (isNegative, remaining characters). -/
def afterSign : List Nat → Bool × List Nat
  | [] => (false, [])
  | c :: r => if c = 45 then (true, r) else if c = 43 then (false, r) else (false, c :: r)

/-- `parseInt(·, 16)` strips a leading `0x`/`0X`. -/
def strip0x : List Nat → List Nat
  | 48 :: c :: r => if c = 120 ∨ c = 88 then r else 48 :: c :: r
  | s => s

/-- `parseInt` preamble: skip whitespace, then read an optional sign. -/
def parseSign (s : List Nat) : Bool × List Nat :=
  afterSign (s.dropWhile (fun c => isWs c))

/-- `parseInt(·, 16)` digit scan: strip `0x`, then the maximal hex-digit run. -/
def hexDigits (s : List Nat) : List Nat :=
  (strip0x s).takeWhile (fun c => (hexVal c).isSome)

/-- Value of a hex-digit run. -/
def hexValAcc (ds : List Nat) : Int :=
  ds.foldl (fun a c => a * 16 + ((hexVal c).getD 0 : Int)) 0

/-- Model of `parseInt(chunk, 16)` followed by storage into a `Uint8Array`
slot (src/index.ts:60-62, 156-157): `NaN` becomes 0, other values are
reduced mod 256 with sign. -/
def parseIntHexByte (chunk : List Nat) : Nat :=
  let p := parseSign chunk
  let ds := hexDigits p.2
  if ds = [] then 0
  else (((if p.1 then -(hexValAcc ds) else hexValAcc ds) % 256)).toNat

/-- Does `.` (regex, no `s` flag) match this character?  Everything except
line terminators. -/
def dotMatch (c : Nat) : Bool := ¬(c = 10 ∨ c = 13 ∨ c = 8232 ∨ c = 8233)

/-- The successive matches of `/.{1,2}/g`: greedy two-character chunks of
non-line-terminator characters, scanning left to right.  (A character that
`.` cannot match never starts a match, so the scan may skip it outright;
after a one-character match before such a character, the scan equally
continues past it.) -/
def chunksAux : List Nat → List (List Nat)
  | [] => []
  | [c] => if dotMatch c then [[c]] else []
  | c :: d :: rest =>
    if dotMatch c then
      if dotMatch d then [c, d] :: chunksAux rest
      else [c] :: chunksAux rest
    else chunksAux (d :: rest)

/-- Model of `hexStr.match(/.{1,2}/g)` (src/index.ts:61): `none` models the
`null` returned when the string has no match at all. -/
def jsMatchChunks (s : List Nat) : Option (List (List Nat)) :=
  match chunksAux s with
  | [] => none
  | l => some l

/-- Mixing fold used by the idealized primitives below (stands in for the
untranslatable AES/SHA internals; only determinism matters). -/
def mixList (seed : Nat) (xs : List Nat) : Nat :=
  xs.foldl (fun a b => (a * 257 + b + 1) % 65536) seed

/-- Idealized AES-GCM keystream byte for position `i` under `key`/`iv`. -/
def ks (key iv : List Nat) (i : Nat) : Nat :=
  (mixList (mixList 1 key) iv + 131 * i) % 256

/-- Ciphertext of the idealized cipher: per-index keystream addition,
starting at stream position `i`. -/
def ctFrom (key iv : List Nat) : Nat → List Nat → List Nat
  | _, [] => []
  | i, b :: bs => (b + ks key iv i) % 256 :: ctFrom key iv (i + 1) bs

/-- Inverse transform of `ctFrom`. -/
def ptFrom (key iv : List Nat) : Nat → List Nat → List Nat
  | _, [] => []
  | i, b :: bs => (b + 256 - ks key iv i) % 256 :: ptFrom key iv (i + 1) bs

/-- `crypto.subtle.encrypt({name:'AES-GCM'})`, idealized: ciphertext followed
by an authentication tag.  The tag is a perfect MAC — an injective record of
(key, nonce, ciphertext) — so that authentication succeeds exactly on blobs
produced by this function (the AEAD integrity guarantee, made absolute). -/
def aesGcmEncrypt (key iv pt : List Nat) : List Nat :=
  ctFrom key iv 0 pt ++ (key ++ iv ++ ctFrom key iv 0 pt)

/-- `crypto.subtle.decrypt({name:'AES-GCM'})`, idealized inverse of
`aesGcmEncrypt`: recover the ciphertext/tag split, check the tag, and undo
the keystream; `none` models the thrown `OperationError` on any failure. -/
def aesGcmDecrypt (key iv data : List Nat) : Option (List Nat) :=
  if 44 + 2 * ((data.length - 44) / 2) = data.length then
    if data.drop ((data.length - 44) / 2) = key ++ iv ++ data.take ((data.length - 44) / 2) then
      some (ptFrom key iv 0 (data.take ((data.length - 44) / 2)))
    else none
  else none

/-- Outcome of a JS function that may throw.  `errDecryptFailed` is the
uniform `new Error('Decryption failed')` thrown by `decryptData`'s own catch
block; `errRaw` is any other exception escaping the function (the `TypeError`
from `hexStr.match(/.{1,2}/g)!` being `null`, or `importKey` rejecting a key
whose length is not 16/24/32 bytes). -/
inductive JsOutcome where
  | ok (s : List Nat)
  | errDecryptFailed
  | errRaw
deriving DecidableEq

/-- `encryptData` (src/index.ts:29-53): seal `plaintext` (a JS string) under
`key`, drawing nonce `iv`; returns `hex(iv ∥ ciphertext ∥ tag)`. -/
def encryptData (plaintext key iv : List Nat) : List Nat :=
  buf2hex (iv ++ aesGcmEncrypt key iv (utf8Encode plaintext))

/-- `decryptData` (src/index.ts:58-89): hex-decode (JS `match`/`parseInt`
semantics, `NaN → 0` in the `Uint8Array`), split off the 12-byte IV, import
the key, and run the authenticated decryption inside `try/catch`. -/
def decryptData (hexStr key : List Nat) : JsOutcome :=
  match jsMatchChunks hexStr with
  | none => .errRaw
  | some chs =>
    let combined := chs.map parseIntHexByte
    if key.length = 16 ∨ key.length = 24 ∨ key.length = 32 then
      match aesGcmDecrypt key (combined.take 12) (combined.drop 12) with
      | some pt => .ok (utf8Decode pt)
      | none => .errDecryptFailed
    else .errRaw

/-- `getMasterKey` (src/index.ts:96-99): SHA-256 of the secret's UTF-8 bytes.
The hash itself is idealized (deterministic, 32 bytes — the only properties
the system uses). -/
def getMasterKey (secret : List Nat) : List Nat :=
  (List.range 32).map (fun i => mixList (i + 1) (utf8Encode secret) % 256)

/-- `{"id":"` — the opening of `JSON.stringify({ id, key })`. -/
def jsonPre : List Nat := [123, 34, 105, 100, 34, 58, 34]

/-- `","key":"` — between the two field values (includes the closing quote
of the id). -/
def jsonMid : List Nat := [34, 44, 34, 107, 101, 121, 34, 58, 34]

/-- `,"key":"` — `jsonMid` after the id's closing quote is consumed. -/
def jsonMid2 : List Nat := [44, 34, 107, 101, 121, 34, 58, 34]

/-- `"}` — the end of the payload. -/
def jsonSuf : List Nat := [34, 125]

/-- `JSON.stringify({ id, key })` (src/index.ts:126) for string fields that
need no escaping (UUIDs and hex strings never do). -/
def jsonStringifyIdKey (id key : List Nat) : List Nat :=
  jsonPre ++ id ++ jsonMid ++ key ++ jsonSuf

/-- Split a string at its first `"` character. -/
def splitAtQuote : List Nat → Option (List Nat × List Nat)
  | [] => none
  | c :: r =>
    if c = 34 then some ([], r)
    else
      match splitAtQuote r with
      | some p => some (c :: p.1, p.2)
      | none => none

/-- Remove an expected literal from the front of a string. -/
def stripLead (lead s : List Nat) : Option (List Nat) :=
  if s.take lead.length = lead then some (s.drop lead.length) else none

/-- `JSON.parse` followed by the `{ id, key }` destructuring
(src/index.ts:146), restricted to the envelope grammar `Share` emits;
`none` models the `SyntaxError` thrown on anything else. -/
def jsonParseIdKey (s : List Nat) : Option (List Nat × List Nat) :=
  (stripLead jsonPre s).bind fun s1 =>
  (splitAtQuote s1).bind fun p1 =>
  (stripLead jsonMid2 p1.2).bind fun s3 =>
  (splitAtQuote s3).bind fun p2 =>
  if p2.2 = [125] then some (p1.1, p2.1) else none

/-- One row of the D1 table `shares` (schema: id, content, created_at).
These are the only columns a Share ever writes. -/
structure ShareRec where
  id : List Nat
  content : List Nat
  createdAt : Nat
deriving DecidableEq

/-- The Share Store: the rows of the `shares` table. -/
abbrev Store := List ShareRec

/-- `SELECT content FROM shares WHERE id = ?` + `.first()`. -/
def storeGet (st : Store) (id : List Nat) : Option (List Nat) :=
  match st.find? (fun r => decide (r.id = id)) with
  | some r => some r.content
  | none => none

/-- The random values one `/api/share` call draws: `crypto.randomUUID()`,
a 256-bit data key, and the two AES-GCM nonces. -/
structure Rand where
  uuid : List Nat
  dataKey : List Nat
  ivC : List Nat
  ivT : List Nat

/-- Shape of `crypto.randomUUID()` output: 36 characters, lowercase hex
digits and dashes. -/
def UuidLike (s : List Nat) : Prop :=
  s.length = 36 ∧ ∀ c ∈ s, (48 ≤ c ∧ c ≤ 57) ∨ (97 ≤ c ∧ c ≤ 102) ∨ c = 45

instance (s : List Nat) : Decidable (UuidLike s) := by
  unfold UuidLike; infer_instance

/-- What the platform's random source guarantees about one call's draws. -/
def Rand.Valid (r : Rand) : Prop :=
  UuidLike r.uuid ∧ r.dataKey.length = 32 ∧ ByteList r.dataKey ∧
  r.ivC.length = 12 ∧ ByteList r.ivC ∧ r.ivT.length = 12 ∧ ByteList r.ivT

instance (r : Rand) : Decidable r.Valid := by
  unfold Rand.Valid; infer_instance

/-- The HTTP-visible outcome of `/api/share`: the token body, or one of the
three error responses (400 Text required, 400 Text too large, 500 Database
error). -/
inductive ShareResp where
  | token (t : List Nat)
  | errRequired
  | errTooLarge
  | errDb
deriving DecidableEq

/-- Result of one `/api/share` call: the response, the resulting store
state, and how many store-write calls were made (counting failed ones). -/
structure ShareOut where
  res : ShareResp
  store : Store
  puts : Nat
deriving DecidableEq

/-- `app.post('/api/share')` (src/index.ts:103-131).  `dbOk` is whether the
`INSERT` succeeds; `now` is `Date.now()`. -/
def share (secret : List Nat) (st : Store) (text : List Nat) (r : Rand)
    (now : Nat) (dbOk : Bool) : ShareOut :=
  if text = [] then ⟨.errRequired, st, 0⟩
  else if 1048576 < utf16Length text then ⟨.errTooLarge, st, 0⟩
  else
    let encryptedContent := encryptData text r.dataKey r.ivC
    if dbOk then
      let payload := jsonStringifyIdKey r.uuid (buf2hex r.dataKey)
      let token := encryptData payload (getMasterKey secret) r.ivT
      ⟨.token token, st ++ [⟨r.uuid, encryptedContent, now⟩], 1⟩
    else ⟨.errDb, st, 1⟩

/-- The HTTP-visible outcome of `/api/retrieve`: the plaintext body, or one
of the error responses (400 Token required, 400 Invalid token, 404 Not
found, 500 "Decryption failed or system error" from the outer catch). -/
inductive RetrieveResult where
  | ok (text : List Nat)
  | errTokenRequired
  | errInvalidToken
  | errNotFound
  | errSystem
deriving DecidableEq

/-- `app.get('/api/retrieve')` (src/index.ts:133-166).  Mirrors the source's
exception routing: only the token `decryptData` call sits in the inner
try/catch (any throw there → 400 Invalid token); `JSON.parse`, the key-hex
decode and the content `decryptData` sit in the outer try/catch (any throw
there → the 500 response). -/
def retrieve (secret : List Nat) (st : Store) (token : List Nat) : RetrieveResult :=
  if token = [] then .errTokenRequired
  else
    match decryptData token (getMasterKey secret) with
    | .errRaw => .errInvalidToken
    | .errDecryptFailed => .errInvalidToken
    | .ok payloadStr =>
      match jsonParseIdKey payloadStr with
      | none => .errSystem
      | some p =>
        match storeGet st p.1 with
        | none => .errNotFound
        | some content =>
          match jsMatchChunks p.2 with
          | none => .errSystem
          | some chs =>
            match decryptData content (chs.map parseIntHexByte) with
            | .ok text => .ok text
            | .errDecryptFailed => .errSystem
            | .errRaw => .errSystem

/-- The sealed-content byte blob (nonce ∥ ciphertext ∥ tag) that one Share
call persists, before hex encoding: `encryptData text r.dataKey r.ivC`
is `buf2hex` of this blob. -/
def sealBlob (text : List Nat) (r : Rand) : List Nat :=
  r.ivC ++ aesGcmEncrypt r.dataKey r.ivC (utf8Encode text)

/-- The token one Share call returns. -/
def tokenOf (secret : List Nat) (r : Rand) : List Nat :=
  encryptData (jsonStringifyIdKey r.uuid (buf2hex r.dataKey)) (getMasterKey secret) r.ivT

/-- Store states reachable from the empty table by any sequence of
`/api/share` calls with platform-valid random draws; `/api/retrieve` never
writes to the store (src/index.ts:133-166 contains no INSERT/UPDATE), so
only Share steps appear. -/
inductive Reachable (secret : List Nat) : Store → Prop where
  | empty : Reachable secret []
  | step (st : Store) (text : List Nat) (r : Rand) (now : Nat) (dbOk : Bool)
      (hr : r.Valid) (h : Reachable secret st) :
      Reachable secret (share secret st text r now dbOk).store

/-! ## UTF-8 codec lemmas -/

theorem utf8Bytes_lt (c : Nat) (hc : c < 1114112) : ∀ b ∈ utf8Bytes c, b < 256 := by
  unfold utf8Bytes
  split
  · intro b hb; simp at hb; omega
  · split
    · intro b hb; simp at hb; rcases hb with h | h <;> omega
    · split
      · intro b hb; simp at hb; rcases hb with h | h | h <;> omega
      · intro b hb; simp at hb; rcases hb with h | h | h | h <;> omega

theorem utf8Bytes_ne_nil (c : Nat) : utf8Bytes c ≠ [] := by
  unfold utf8Bytes
  split
  · simp
  · split
    · simp
    · split <;> simp

theorem utf8Encode_nil : utf8Encode [] = [] := rfl

theorem utf8Encode_cons (c : Nat) (s : List Nat) :
    utf8Encode (c :: s) = utf8Bytes c ++ utf8Encode s := by
  simp [utf8Encode]

theorem utf8Encode_byteList (s : List Nat) (hs : ∀ c ∈ s, c < 1114112) :
    ByteList (utf8Encode s) := by
  induction s with
  | nil => intro b hb; simp [utf8Encode_nil] at hb
  | cons c s ih =>
    intro b hb
    rw [utf8Encode_cons] at hb
    rcases List.mem_append.mp hb with h | h
    · exact utf8Bytes_lt c (hs c (by simp)) b h
    · exact ih (fun x hx => hs x (by simp [hx])) b h

theorem utf8Encode_ne_nil (s : List Nat) (hs : s ≠ []) : utf8Encode s ≠ [] := by
  cases s with
  | nil => exact absurd rfl hs
  | cons c s =>
    rw [utf8Encode_cons]
    intro h
    exact utf8Bytes_ne_nil c (List.append_eq_nil.mp h).1

theorem utf8Bytes_ascii (c : Nat) (hc : c < 128) : utf8Bytes c = [c] := by
  unfold utf8Bytes; rw [if_pos hc]

theorem utf8Encode_ascii (s : List Nat) (hs : ∀ c ∈ s, c < 128) : utf8Encode s = s := by
  induction s with
  | nil => rfl
  | cons c s ih =>
    rw [utf8Encode_cons, utf8Bytes_ascii c (hs c (by simp)),
      ih (fun x hx => hs x (by simp [hx]))]
    rfl

theorem utf8DecodeGo_nil (f : Nat) : utf8DecodeGo f [] = [] := by
  cases f <;> rfl

theorem utf8DecodeGo_eq (f : Nat) : ∀ (g : Nat) (l : List Nat), l.length ≤ f →
    l.length ≤ g → utf8DecodeGo f l = utf8DecodeGo g l := by
  induction f with
  | zero =>
    intro g l hf hg
    cases l with
    | nil => rw [utf8DecodeGo_nil, utf8DecodeGo_nil]
    | cons b rest => simp at hf
  | succ f ih =>
    intro g l hf hg
    cases l with
    | nil => rw [utf8DecodeGo_nil, utf8DecodeGo_nil]
    | cons b rest =>
      simp only [List.length_cons] at hf hg
      cases g with
      | zero => omega
      | succ g =>
        rw [utf8DecodeGo, utf8DecodeGo]
        cases hs : utf8Step b rest with
        | mk v k =>
          cases k with
          | zero =>
            simp only [hs]
            rw [ih g rest (by omega) (by omega)]
          | succ k =>
            simp only [hs]
            rw [ih g (rest.drop (k + 1)) (by simp [List.length_drop]; omega)
              (by simp [List.length_drop]; omega)]

theorem utf8DecodeGo_fuel (f : Nat) (l : List Nat) (hl : l.length ≤ f) :
    utf8DecodeGo f l = utf8Decode l :=
  utf8DecodeGo_eq f l.length l hl (le_refl _)

theorem utf8Decode_nil : utf8Decode [] = [] := rfl

theorem utf8Decode_cons_step (b : Nat) (rest : List Nat) (v k : Nat)
    (h : utf8Step b rest = (v, k)) :
    utf8Decode (b :: rest) = v :: utf8Decode (rest.drop k) := by
  show utf8DecodeGo (b :: rest).length (b :: rest) = _
  simp only [List.length_cons]
  rw [utf8DecodeGo]
  rw [h]
  cases k with
  | zero =>
    show v :: utf8DecodeGo rest.length rest = v :: utf8Decode (rest.drop 0)
    rw [utf8DecodeGo_fuel rest.length rest (le_refl _)]
    simp
  | succ k =>
    show v :: utf8DecodeGo rest.length (rest.drop (k + 1))
      = v :: utf8Decode (rest.drop (k + 1))
    rw [utf8DecodeGo_fuel rest.length (rest.drop (k + 1)) (by simp [List.length_drop])]

theorem utf8Step_ascii (b : Nat) (hb : b < 128) (rest : List Nat) :
    utf8Step b rest = (b, 0) := by
  unfold utf8Step
  rw [if_pos hb]

theorem utf8Step_two (c : Nat) (h1 : 128 ≤ c) (h2 : c < 2048) (rest : List Nat) :
    utf8Step (192 + c / 64) ((128 + c % 64) :: rest) = (c, 1) := by
  unfold utf8Step
  rw [if_neg (by omega), if_neg (by omega), if_pos (by omega)]
  show (if 128 ≤ 128 + c % 64 ∧ 128 + c % 64 < 192 then
      (64 * (192 + c / 64 - 192) + (128 + c % 64 - 128), 1) else (65533, 1)) = (c, 1)
  rw [if_pos (by omega)]
  rw [Prod.mk.injEq]
  refine ⟨by omega, rfl⟩

theorem utf8Step_three (c : Nat) (h1 : 2048 ≤ c) (h2 : c < 65536) (rest : List Nat) :
    utf8Step (224 + c / 4096) ((128 + c / 64 % 64) :: (128 + c % 64) :: rest) = (c, 2) := by
  unfold utf8Step
  rw [if_neg (by omega), if_neg (by omega), if_neg (by omega), if_pos (by omega)]
  show (if (128 ≤ 128 + c / 64 % 64 ∧ 128 + c / 64 % 64 < 192) ∧
        128 ≤ 128 + c % 64 ∧ 128 + c % 64 < 192 then
      (4096 * (224 + c / 4096 - 224) + 64 * (128 + c / 64 % 64 - 128) + (128 + c % 64 - 128), 2)
      else (65533, 2)) = (c, 2)
  rw [if_pos (by omega)]
  rw [Prod.mk.injEq]
  refine ⟨by omega, rfl⟩

theorem utf8Step_four (c : Nat) (h1 : 65536 ≤ c) (h2 : c < 1114112) (rest : List Nat) :
    utf8Step (240 + c / 262144)
      ((128 + c / 4096 % 64) :: (128 + c / 64 % 64) :: (128 + c % 64) :: rest) = (c, 3) := by
  unfold utf8Step
  rw [if_neg (by omega), if_neg (by omega), if_neg (by omega), if_neg (by omega),
    if_pos (by omega)]
  show (if (128 ≤ 128 + c / 4096 % 64 ∧ 128 + c / 4096 % 64 < 192) ∧
        (128 ≤ 128 + c / 64 % 64 ∧ 128 + c / 64 % 64 < 192) ∧
        128 ≤ 128 + c % 64 ∧ 128 + c % 64 < 192 then
      (262144 * (240 + c / 262144 - 240) + 4096 * (128 + c / 4096 % 64 - 128) +
        64 * (128 + c / 64 % 64 - 128) + (128 + c % 64 - 128), 3)
      else (65533, 3)) = (c, 3)
  rw [if_pos (by omega)]
  rw [Prod.mk.injEq]
  refine ⟨by omega, rfl⟩

theorem utf8Decode_ascii_cons (b : Nat) (hb : b < 128) (rest : List Nat) :
    utf8Decode (b :: rest) = b :: utf8Decode rest := by
  rw [utf8Decode_cons_step b rest b 0 (utf8Step_ascii b hb rest)]
  simp

theorem utf8Decode_bytes_cons (c : Nat) (hc : c < 1114112) (rest : List Nat) :
    utf8Decode (utf8Bytes c ++ rest) = c :: utf8Decode rest := by
  unfold utf8Bytes
  by_cases h1 : c < 128
  · rw [if_pos h1, List.singleton_append, utf8Decode_ascii_cons c h1]
  · rw [if_neg h1]
    by_cases h2 : c < 2048
    · rw [if_pos h2]
      show utf8Decode ((192 + c / 64) :: (128 + c % 64) :: rest) = _
      rw [utf8Decode_cons_step _ _ c 1 (utf8Step_two c (by omega) h2 rest)]
      simp
    · rw [if_neg h2]
      by_cases h3 : c < 65536
      · rw [if_pos h3]
        show utf8Decode ((224 + c / 4096) :: (128 + c / 64 % 64) :: (128 + c % 64) :: rest) = _
        rw [utf8Decode_cons_step _ _ c 2 (utf8Step_three c (by omega) h3 rest)]
        simp
      · rw [if_neg h3]
        show utf8Decode ((240 + c / 262144) :: (128 + c / 4096 % 64) :: (128 + c / 64 % 64) ::
          (128 + c % 64) :: rest) = _
        rw [utf8Decode_cons_step _ _ c 3 (utf8Step_four c (by omega) hc rest)]
        simp

theorem utf8_decode_encode (s : List Nat) (hs : ∀ c ∈ s, c < 1114112) :
    utf8Decode (utf8Encode s) = s := by
  induction s with
  | nil => exact utf8Decode_nil
  | cons c s ih =>
    rw [utf8Encode_cons, utf8Decode_bytes_cons c (hs c (by simp)),
      ih (fun x hx => hs x (by simp [hx]))]

theorem utf8Decode_ascii (s : List Nat) (hs : ∀ c ∈ s, c < 128) : utf8Decode s = s := by
  induction s with
  | nil => exact utf8Decode_nil
  | cons c s ih =>
    rw [utf8Decode_ascii_cons c (hs c (by simp)), ih (fun x hx => hs x (by simp [hx]))]

theorem utf16Length_nil : utf16Length [] = 0 := rfl

theorem utf16Length_cons (c : Nat) (s : List Nat) :
    utf16Length (c :: s) = utf16Len c + utf16Length s := by
  simp [utf16Length]

theorem utf16Length_pos (s : List Nat) (hs : s ≠ []) : 1 ≤ utf16Length s := by
  cases s with
  | nil => exact absurd rfl hs
  | cons c s =>
    rw [utf16Length_cons]
    have : 1 ≤ utf16Len c := by unfold utf16Len; split <;> omega
    omega

/-! ## Hex codec lemmas -/

theorem hexChar_range (n : Nat) (hn : n < 16) :
    (48 ≤ hexChar n ∧ hexChar n ≤ 57) ∨ (97 ≤ hexChar n ∧ hexChar n ≤ 102) := by
  unfold hexChar; split <;> omega

theorem dotMatch_true (c : Nat) (h : c ≠ 10 ∧ c ≠ 13 ∧ c ≠ 8232 ∧ c ≠ 8233) :
    dotMatch c = true := by
  unfold dotMatch; simp; omega

theorem buf2hex_nil : buf2hex [] = [] := rfl

theorem buf2hex_cons (b : Nat) (bs : List Nat) :
    buf2hex (b :: bs) = hexChar (b / 16) :: hexChar (b % 16) :: buf2hex bs := by
  simp [buf2hex]

theorem buf2hex_append (a b : List Nat) : buf2hex (a ++ b) = buf2hex a ++ buf2hex b := by
  simp [buf2hex]

theorem buf2hex_length (bs : List Nat) : (buf2hex bs).length = 2 * bs.length := by
  induction bs with
  | nil => rfl
  | cons b bs ih => rw [buf2hex_cons]; simp [ih]; omega

theorem buf2hex_mem (bs : List Nat) (h : ByteList bs) :
    ∀ c ∈ buf2hex bs, (48 ≤ c ∧ c ≤ 57) ∨ (97 ≤ c ∧ c ≤ 102) := by
  induction bs with
  | nil => intro c hc; simp [buf2hex_nil] at hc
  | cons b bs ih =>
    intro c hc
    rw [buf2hex_cons] at hc
    have hb : b < 256 := h b (by simp)
    rw [List.mem_cons, List.mem_cons] at hc
    rcases hc with hc | hc | hc
    · subst hc; exact hexChar_range _ (by omega)
    · subst hc; exact hexChar_range _ (by omega)
    · exact ih (fun x hx => h x (by simp [hx])) c hc

theorem chunksAux_nil : chunksAux [] = [] := by rw [chunksAux]

theorem chunksAux_pair (c d : Nat) (rest : List Nat) (hc : dotMatch c = true)
    (hd : dotMatch d = true) :
    chunksAux (c :: d :: rest) = [c, d] :: chunksAux rest := by
  rw [chunksAux]
  rw [if_pos hc]
  rw [if_pos hd]

theorem chunksAux_buf2hex (bs : List Nat) (h : ByteList bs) :
    chunksAux (buf2hex bs) = bs.map (fun b => [hexChar (b / 16), hexChar (b % 16)]) := by
  induction bs with
  | nil => exact chunksAux_nil
  | cons b bs ih =>
    have hb : b < 256 := h b (by simp)
    have h1 := hexChar_range (b / 16) (by omega)
    have h2 := hexChar_range (b % 16) (by omega)
    rw [buf2hex_cons,
      chunksAux_pair _ _ _ (dotMatch_true _ (by omega)) (dotMatch_true _ (by omega)),
      ih (fun x hx => h x (by simp [hx]))]
    simp

theorem hexVal_hexChar (n : Nat) (hn : n < 16) : hexVal (hexChar n) = some n := by
  by_cases h : n < 10
  · have e : hexChar n = 48 + n := by unfold hexChar; rw [if_pos h]
    rw [e]
    unfold hexVal
    rw [if_pos (by omega)]
    congr 1
    omega
  · have e : hexChar n = 87 + n := by unfold hexChar; rw [if_neg h]
    rw [e]
    unfold hexVal
    rw [if_neg (by omega), if_pos (by omega)]
    congr 1
    omega

theorem isWs_hexChar (n : Nat) (hn : n < 16) : isWs (hexChar n) = false := by
  have := hexChar_range n hn
  unfold isWs
  simp
  omega

theorem strip0x_hexpair (h1 h2 : Nat)
    (hh1 : (48 ≤ h1 ∧ h1 ≤ 57) ∨ (97 ≤ h1 ∧ h1 ≤ 102))
    (hh2 : (48 ≤ h2 ∧ h2 ≤ 57) ∨ (97 ≤ h2 ∧ h2 ≤ 102)) :
    strip0x [h1, h2] = [h1, h2] := by
  unfold strip0x
  split
  · next c r heq =>
    injection heq with e1 e2
    injection e2 with e2 e3
    subst e1 e2
    rw [if_neg (by omega)]
    subst e3
    rfl
  · rfl

theorem parseSign_hexpair (h1 h2 : Nat)
    (hh1 : (48 ≤ h1 ∧ h1 ≤ 57) ∨ (97 ≤ h1 ∧ h1 ≤ 102))
    (hh2 : (48 ≤ h2 ∧ h2 ≤ 57) ∨ (97 ≤ h2 ∧ h2 ≤ 102)) :
    parseSign [h1, h2] = (false, [h1, h2]) := by
  unfold parseSign
  rw [List.dropWhile_cons_of_neg (by unfold isWs; simp; omega)]
  simp only [afterSign]
  rw [if_neg (by omega), if_neg (by omega)]

theorem hexDigits_pair (b : Nat) (hb : b < 256) :
    hexDigits [hexChar (b / 16), hexChar (b % 16)] = [hexChar (b / 16), hexChar (b % 16)] := by
  have r1 := hexChar_range (b / 16) (by omega)
  have r2 := hexChar_range (b % 16) (by omega)
  unfold hexDigits
  rw [strip0x_hexpair _ _ r1 r2]
  rw [List.takeWhile_cons_of_pos (by simp [hexVal_hexChar _ (by omega : b / 16 < 16)]),
    List.takeWhile_cons_of_pos (by simp [hexVal_hexChar _ (by omega : b % 16 < 16)]),
    List.takeWhile_nil]

theorem hexValAcc_pair (b : Nat) (hb : b < 256) :
    hexValAcc [hexChar (b / 16), hexChar (b % 16)] = (b : Int) := by
  unfold hexValAcc
  rw [List.foldl_cons, List.foldl_cons, List.foldl_nil,
    hexVal_hexChar _ (by omega : b / 16 < 16), hexVal_hexChar _ (by omega : b % 16 < 16)]
  simp only [Option.getD_some]
  push_cast
  omega

theorem parseIntHexByte_pair (b : Nat) (hb : b < 256) :
    parseIntHexByte [hexChar (b / 16), hexChar (b % 16)] = b := by
  have r1 := hexChar_range (b / 16) (by omega)
  have r2 := hexChar_range (b % 16) (by omega)
  simp only [parseIntHexByte, parseSign_hexpair _ _ r1 r2, hexDigits_pair b hb,
    hexValAcc_pair b hb]
  rw [if_neg (by simp)]
  simp only [Bool.false_eq_true, if_false]
  rw [Int.emod_eq_of_lt (by omega) (by omega)]
  simp

theorem map_parseInt_hexpairs (bs : List Nat) (h : ByteList bs) :
    (bs.map (fun b => [hexChar (b / 16), hexChar (b % 16)])).map parseIntHexByte = bs := by
  induction bs with
  | nil => rfl
  | cons b bs ih =>
    simp only [List.map_cons]
    rw [parseIntHexByte_pair b (h b (by simp)), ih (fun x hx => h x (by simp [hx]))]

theorem jsMatchChunks_buf2hex (bs : List Nat) (h : ByteList bs) (hne : bs ≠ []) :
    jsMatchChunks (buf2hex bs) =
      some (bs.map (fun b => [hexChar (b / 16), hexChar (b % 16)])) := by
  unfold jsMatchChunks
  rw [chunksAux_buf2hex bs h]
  cases bs with
  | nil => exact absurd rfl hne
  | cons b bs => rfl

theorem hexParse_buf2hex (bs : List Nat) (h : ByteList bs) (hne : bs ≠ []) :
    ∃ chs, jsMatchChunks (buf2hex bs) = some chs ∧ chs.map parseIntHexByte = bs :=
  ⟨_, jsMatchChunks_buf2hex bs h hne, map_parseInt_hexpairs bs h⟩

theorem buf2hex_inj (a b : List Nat) (ha : ByteList a) (hb : ByteList b)
    (h : buf2hex a = buf2hex b) : a = b := by
  have := map_parseInt_hexpairs a ha
  have hb2 := map_parseInt_hexpairs b hb
  have hc : chunksAux (buf2hex a) = chunksAux (buf2hex b) := by rw [h]
  rw [chunksAux_buf2hex a ha, chunksAux_buf2hex b hb] at hc
  rw [← this, ← hb2, hc]

/-! ## Idealized cipher lemmas -/

theorem ks_lt (key iv : List Nat) (i : Nat) : ks key iv i < 256 := by
  unfold ks; omega

theorem ctFrom_length (key iv : List Nat) (i : Nat) (pt : List Nat) :
    (ctFrom key iv i pt).length = pt.length := by
  induction pt generalizing i with
  | nil => rfl
  | cons b bs ih => rw [ctFrom]; simp [ih]

theorem ctFrom_byteList (key iv : List Nat) (i : Nat) (pt : List Nat) :
    ByteList (ctFrom key iv i pt) := by
  induction pt generalizing i with
  | nil => intro b hb; simp [ctFrom] at hb
  | cons b bs ih =>
    intro x hx
    rw [ctFrom, List.mem_cons] at hx
    rcases hx with hx | hx
    · omega
    · exact ih (i + 1) x hx

theorem ptFrom_ctFrom (key iv : List Nat) (i : Nat) (pt : List Nat) (h : ByteList pt) :
    ptFrom key iv i (ctFrom key iv i pt) = pt := by
  induction pt generalizing i with
  | nil => rfl
  | cons b bs ih =>
    rw [ctFrom, ptFrom]
    have hb : b < 256 := h b (by simp)
    have hk : ks key iv i < 256 := ks_lt key iv i
    rw [ih (i + 1) (fun x hx => h x (by simp [hx]))]
    congr 1
    omega

theorem ctFrom_ptFrom (key iv : List Nat) (i : Nat) (ct : List Nat) (h : ByteList ct) :
    ctFrom key iv i (ptFrom key iv i ct) = ct := by
  induction ct generalizing i with
  | nil => rfl
  | cons b bs ih =>
    rw [ptFrom, ctFrom]
    have hb : b < 256 := h b (by simp)
    have hk : ks key iv i < 256 := ks_lt key iv i
    rw [ih (i + 1) (fun x hx => h x (by simp [hx]))]
    congr 1
    omega

theorem aesGcmEncrypt_length (key iv pt : List Nat) :
    (aesGcmEncrypt key iv pt).length = 2 * pt.length + key.length + iv.length := by
  unfold aesGcmEncrypt
  simp [ctFrom_length]
  omega

theorem aesGcmEncrypt_byteList (key iv pt : List Nat) (hk : ByteList key)
    (hiv : ByteList iv) : ByteList (aesGcmEncrypt key iv pt) := by
  unfold aesGcmEncrypt
  intro b hb
  simp only [List.mem_append] at hb
  rcases hb with hb | (hb | hb) | hb
  · exact ctFrom_byteList key iv 0 pt b hb
  · exact hk b hb
  · exact hiv b hb
  · exact ctFrom_byteList key iv 0 pt b hb

theorem aesGcmDecrypt_encrypt (key iv pt : List Nat) (hk : key.length = 32)
    (hiv : iv.length = 12) (hpt : ByteList pt) :
    aesGcmDecrypt key iv (aesGcmEncrypt key iv pt) = some pt := by
  unfold aesGcmDecrypt aesGcmEncrypt
  have hlen : (ctFrom key iv 0 pt ++ (key ++ iv ++ ctFrom key iv 0 pt)).length
      = 44 + 2 * pt.length := by
    simp [ctFrom_length, hk, hiv]
    omega
  have hL : (ctFrom key iv 0 pt ++ (key ++ iv ++ ctFrom key iv 0 pt)).length - 44 = 
      2 * pt.length := by omega
  rw [if_pos (by omega)]
  have hLe : ((ctFrom key iv 0 pt ++ (key ++ iv ++ ctFrom key iv 0 pt)).length - 44) / 2
      = (ctFrom key iv 0 pt).length := by
    rw [hL, ctFrom_length]
    omega
  rw [hLe, List.take_left, List.drop_left]
  rw [if_pos rfl, ptFrom_ctFrom key iv 0 pt hpt]

theorem aesGcmDecrypt_some (key iv data pt : List Nat)
    (h : aesGcmDecrypt key iv data = some pt) :
    data = data.take ((data.length - 44) / 2) ++ (key ++ iv ++ data.take ((data.length - 44) / 2))
      ∧ pt = ptFrom key iv 0 (data.take ((data.length - 44) / 2)) := by
  unfold aesGcmDecrypt at h
  by_cases h1 : 44 + 2 * ((data.length - 44) / 2) = data.length
  · rw [if_pos h1] at h
    by_cases h2 : data.drop ((data.length - 44) / 2) =
        key ++ iv ++ data.take ((data.length - 44) / 2)
    · rw [if_pos h2] at h
      constructor
      · conv_lhs => rw [← List.take_append_drop ((data.length - 44) / 2) data]
        rw [h2]
      · exact (Option.some.inj h).symm
    · rw [if_neg h2] at h
      exact absurd h (by simp)
  · rw [if_neg h1] at h
    exact absurd h (by simp)

theorem getMasterKey_length (secret : List Nat) : (getMasterKey secret).length = 32 := by
  unfold getMasterKey
  simp

theorem getMasterKey_byteList (secret : List Nat) : ByteList (getMasterKey secret) := by
  unfold getMasterKey
  intro b hb
  simp at hb
  obtain ⟨i, hi, he⟩ := hb
  omega

/-! ## `encryptData`/`decryptData` round trip -/

theorem encryptData_blob_byteList (p key iv : List Nat) (hk : ByteList key)
    (hiv : ByteList iv) : ByteList (iv ++ aesGcmEncrypt key iv (utf8Encode p)) := by
  intro b hb
  rcases List.mem_append.mp hb with hb | hb
  · exact hiv b hb
  · exact aesGcmEncrypt_byteList key iv (utf8Encode p) hk hiv b hb

theorem decryptData_encryptData (p key iv : List Nat) (hk : key.length = 32)
    (hkb : ByteList key) (hiv : iv.length = 12) (hivb : ByteList iv)
    (hp : ∀ c ∈ p, c < 1114112) :
    decryptData (encryptData p key iv) key = .ok (utf8Decode (utf8Encode p)) := by
  unfold encryptData decryptData
  have hbl : ByteList (iv ++ aesGcmEncrypt key iv (utf8Encode p)) :=
    encryptData_blob_byteList p key iv hkb hivb
  have hne : iv ++ aesGcmEncrypt key iv (utf8Encode p) ≠ [] := by
    intro h
    have := congrArg List.length h
    simp [hiv] at this
  obtain ⟨chs, hchs, hmap⟩ := hexParse_buf2hex _ hbl hne
  rw [hchs]
  show (if key.length = 16 ∨ key.length = 24 ∨ key.length = 32 then _ else _) = _
  rw [if_pos (by omega)]
  rw [hmap]
  have ht : List.take 12 (iv ++ aesGcmEncrypt key iv (utf8Encode p)) = iv := by
    rw [← hiv, List.take_left]
  have hd : List.drop 12 (iv ++ aesGcmEncrypt key iv (utf8Encode p))
      = aesGcmEncrypt key iv (utf8Encode p) := by
    rw [← hiv, List.drop_left]
  rw [ht, hd, aesGcmDecrypt_encrypt key iv _ hk hiv (utf8Encode_byteList p hp)]

theorem decryptData_encryptData_text (p key iv : List Nat) (hk : key.length = 32)
    (hkb : ByteList key) (hiv : iv.length = 12) (hivb : ByteList iv)
    (hp : ∀ c ∈ p, c < 1114112) :
    decryptData (encryptData p key iv) key = .ok p := by
  rw [decryptData_encryptData p key iv hk hkb hiv hivb hp, utf8_decode_encode p hp]

/-! ## JSON envelope and store lemmas -/

theorem splitAtQuote_append (a b : List Nat) (ha : 34 ∉ a) :
    splitAtQuote (a ++ 34 :: b) = some (a, b) := by
  induction a with
  | nil =>
    rw [List.nil_append, splitAtQuote]
    rw [if_pos rfl]
  | cons c r ih =>
    rw [List.cons_append, splitAtQuote]
    rw [if_neg (by intro h; exact ha (by simp [h]))]
    rw [ih (by intro h; exact ha (by simp [h]))]

theorem stripLead_append (lead r : List Nat) : stripLead lead (lead ++ r) = some r := by
  unfold stripLead
  rw [List.take_left, if_pos rfl, List.drop_left]

theorem jsonParse_stringify (id key : List Nat) (hid : 34 ∉ id) (hkey : 34 ∉ key) :
    jsonParseIdKey (jsonStringifyIdKey id key) = some (id, key) := by
  have e1 : jsonStringifyIdKey id key
      = jsonPre ++ (id ++ 34 :: (jsonMid2 ++ (key ++ 34 :: [125]))) := by
    unfold jsonStringifyIdKey
    simp [jsonPre, jsonMid, jsonMid2, jsonSuf]
  rw [e1]
  unfold jsonParseIdKey
  rw [stripLead_append]
  simp only [Option.some_bind]
  rw [splitAtQuote_append _ _ hid]
  simp only [Option.some_bind]
  rw [stripLead_append]
  simp only [Option.some_bind]
  rw [splitAtQuote_append _ _ hkey]
  simp only [Option.some_bind]
  simp

theorem jsonStringify_ascii (id key : List Nat) (hid : ∀ c ∈ id, c < 128)
    (hkey : ∀ c ∈ key, c < 128) : ∀ c ∈ jsonStringifyIdKey id key, c < 128 := by
  intro c hc
  unfold jsonStringifyIdKey at hc
  simp only [List.append_assoc, List.mem_append] at hc
  rcases hc with hc | hc | hc | hc | hc
  · simp [jsonPre] at hc; rcases hc with h | h | h | h | h <;> omega
  · exact hid c hc
  · simp [jsonMid] at hc; rcases hc with h | h | h | h | h | h | h <;> omega
  · exact hkey c hc
  · simp [jsonSuf] at hc; rcases hc with h | h <;> omega

theorem storeGet_append_fresh (st : Store) (rec : ShareRec)
    (h : ∀ x ∈ st, x.id ≠ rec.id) :
    storeGet (st ++ [rec]) rec.id = some rec.content := by
  unfold storeGet
  rw [List.find?_append]
  have hnone : st.find? (fun r => decide (r.id = rec.id)) = none := by
    rw [List.find?_eq_none]
    intro x hx
    simp [h x hx]
  rw [hnone]
  show (match List.find? (fun r => decide (r.id = rec.id)) [rec] with
    | some r => some r.content
    | none => none) = _
  rw [List.find?_cons_of_pos _ (by simp)]

theorem storeGet_none (st : Store) (id : List Nat) (h : ∀ x ∈ st, x.id ≠ id) :
    storeGet st id = none := by
  unfold storeGet
  have hnone : st.find? (fun r => decide (r.id = id)) = none := by
    rw [List.find?_eq_none]
    intro x hx
    simp [h x hx]
  rw [hnone]

/-! ## The Share/Retrieve round trip -/

theorem encryptData_length (p key iv : List Nat) :
    (encryptData p key iv).length
      = 2 * (2 * iv.length + 2 * (utf8Encode p).length + key.length) := by
  unfold encryptData
  rw [buf2hex_length]
  simp [aesGcmEncrypt_length]
  omega

theorem encryptData_ne_nil (p key iv : List Nat) (hiv : iv ≠ []) :
    encryptData p key iv ≠ [] := by
  intro h
  have hl := congrArg List.length h
  rw [encryptData_length] at hl
  simp only [List.length_nil] at hl
  have hz : iv.length = 0 := by omega
  exact hiv (List.length_eq_zero.mp hz)

theorem uuid_no_quote (u : List Nat) (hu : UuidLike u) : 34 ∉ u := by
  intro h
  rcases (hu.2 34 h) with h1 | h1 | h1 <;> omega

theorem uuid_ascii (u : List Nat) (hu : UuidLike u) : ∀ c ∈ u, c < 128 := by
  intro c hc
  rcases (hu.2 c hc) with h1 | h1 | h1 <;> omega

theorem buf2hex_no_quote (bs : List Nat) (h : ByteList bs) : 34 ∉ buf2hex bs := by
  intro hm
  rcases buf2hex_mem bs h 34 hm with h1 | h1 <;> omega

theorem buf2hex_ascii (bs : List Nat) (h : ByteList bs) : ∀ c ∈ buf2hex bs, c < 128 := by
  intro c hc
  rcases buf2hex_mem bs h c hc with h1 | h1 <;> omega

theorem share_accepts (secret : List Nat) (st : Store) (text : List Nat) (r : Rand)
    (now : Nat) (hne : text ≠ []) (hlen : utf16Length text ≤ 1048576) :
    share secret st text r now true =
      ⟨.token (encryptData (jsonStringifyIdKey r.uuid (buf2hex r.dataKey))
          (getMasterKey secret) r.ivT),
        st ++ [⟨r.uuid, encryptData text r.dataKey r.ivC, now⟩], 1⟩ := by
  unfold share
  rw [if_neg hne, if_neg (by omega)]
  rfl

theorem retrieve_share_roundtrip (secret : List Nat) (st : Store) (text : List Nat)
    (r : Rand) (now : Nat) (hr : r.Valid) (ht : ValidText text)
    (hfresh : ∀ rec ∈ st, rec.id ≠ r.uuid) :
    retrieve secret (st ++ [⟨r.uuid, encryptData text r.dataKey r.ivC, now⟩])
      (encryptData (jsonStringifyIdKey r.uuid (buf2hex r.dataKey))
        (getMasterKey secret) r.ivT) = .ok text := by
  obtain ⟨hu, hkl, hkb, hcl, hcb, htl, htb⟩ := hr
  have hpa : ∀ c ∈ jsonStringifyIdKey r.uuid (buf2hex r.dataKey), c < 128 :=
    jsonStringify_ascii _ _ (uuid_ascii _ hu) (buf2hex_ascii _ hkb)
  have hps : ∀ c ∈ jsonStringifyIdKey r.uuid (buf2hex r.dataKey), c < 1114112 :=
    fun c hc => by have := hpa c hc; omega
  have htokne : encryptData (jsonStringifyIdKey r.uuid (buf2hex r.dataKey))
      (getMasterKey secret) r.ivT ≠ [] :=
    encryptData_ne_nil _ _ _ (by intro h; rw [h] at htl; simp at htl)
  have e1 : decryptData (encryptData (jsonStringifyIdKey r.uuid (buf2hex r.dataKey))
      (getMasterKey secret) r.ivT) (getMasterKey secret)
      = .ok (jsonStringifyIdKey r.uuid (buf2hex r.dataKey)) :=
    decryptData_encryptData_text _ _ _ (getMasterKey_length secret)
      (getMasterKey_byteList secret) htl htb hps
  have e2 : jsonParseIdKey (jsonStringifyIdKey r.uuid (buf2hex r.dataKey))
      = some (r.uuid, buf2hex r.dataKey) :=
    jsonParse_stringify _ _ (uuid_no_quote _ hu) (buf2hex_no_quote _ hkb)
  have e3 : storeGet (st ++ [⟨r.uuid, encryptData text r.dataKey r.ivC, now⟩]) r.uuid
      = some (encryptData text r.dataKey r.ivC) :=
    storeGet_append_fresh st ⟨r.uuid, encryptData text r.dataKey r.ivC, now⟩ hfresh
  have hkne : r.dataKey ≠ [] := by intro h; rw [h] at hkl; simp at hkl
  have e4 : jsMatchChunks (buf2hex r.dataKey)
      = some (r.dataKey.map (fun b => [hexChar (b / 16), hexChar (b % 16)])) :=
    jsMatchChunks_buf2hex _ hkb hkne
  have e5 : (r.dataKey.map (fun b => [hexChar (b / 16), hexChar (b % 16)])).map
      parseIntHexByte = r.dataKey := map_parseInt_hexpairs _ hkb
  have e6 : decryptData (encryptData text r.dataKey r.ivC) r.dataKey = .ok text :=
    decryptData_encryptData_text _ _ _ hkl hkb hcl hcb (fun c hc => (ht c hc).1)
  unfold retrieve
  rw [if_neg htokne]
  simp only [e1, e2, e3, e4, e5, e6]

/-! ## Auxiliary lemmas for totality of `decryptData` -/

theorem chunksAux_ne_nil (s : List Nat) : (∃ c ∈ s, dotMatch c = true) →
    chunksAux s ≠ [] := by
  induction s with
  | nil =>
    intro h
    obtain ⟨c, hc, _⟩ := h
    simp at hc
  | cons a rest ih =>
    intro h
    cases rest with
    | nil =>
      obtain ⟨c, hc, hcd⟩ := h
      simp at hc
      subst hc
      rw [chunksAux, if_pos hcd]
      simp
    | cons d r2 =>
      by_cases ha : dotMatch a = true
      · rw [chunksAux, if_pos ha]
        by_cases hd : dotMatch d = true
        · rw [if_pos hd]; simp
        · rw [if_neg hd]; simp
      · rw [chunksAux, if_neg ha]
        apply ih
        obtain ⟨c, hc, hcd⟩ := h
        rcases List.mem_cons.mp hc with rfl | hc2
        · exact absurd hcd ha
        · exact ⟨c, hc2, hcd⟩

theorem jsMatchChunks_of_ne_nil (s : List Nat) (h : chunksAux s ≠ []) :
    jsMatchChunks s = some (chunksAux s) := by
  unfold jsMatchChunks
  cases hc : chunksAux s with
  | nil => exact absurd hc h
  | cons a l => rfl

/-! ## Claim theorems -/

/-- C1: for every text `T` with `1 ≤ length(T) ≤ 1 MiB` (JS `String.length`,
i.e. UTF-16 code units), retrieving the token returned by sharing `T` against
the store state left by that Share yields exactly `T`:
`Retrieve(Share(T)) = T`. -/
theorem C1_share_retrieve_roundtrip (secret : List Nat) (st : Store) (text : List Nat)
    (r : Rand) (now : Nat) (hr : r.Valid) (ht : ValidText text)
    (h1 : 1 ≤ utf16Length text) (h2 : utf16Length text ≤ 1048576)
    (hfresh : ∀ rec ∈ st, rec.id ≠ r.uuid) :
    ∃ tok st2, share secret st text r now true = ⟨ShareResp.token tok, st2, 1⟩ ∧
      retrieve secret st2 tok = RetrieveResult.ok text := by
  have hne : text ≠ [] := by
    intro h
    rw [h] at h1
    simp [utf16Length_nil] at h1
  exact ⟨_, _, share_accepts secret st text r now hne h2,
    retrieve_share_roundtrip secret st text r now hr ht hfresh⟩

/-- Witness for C1 at the concrete text `"hi"` and concrete random draws. -/
theorem C1_witness :
    ∃ tok st2,
      share [115] [] [104, 105]
        ⟨List.replicate 36 97, List.replicate 32 5,
          List.replicate 12 3, List.replicate 12 7⟩ 0 true
        = ⟨ShareResp.token tok, st2, 1⟩ ∧
      retrieve [115] st2 tok = RetrieveResult.ok [104, 105] :=
  C1_share_retrieve_roundtrip [115] [] [104, 105]
    ⟨List.replicate 36 97, List.replicate 32 5, List.replicate 12 3, List.replicate 12 7⟩
    0 (by decide) (by decide) (by decide) (by decide) (by simp)

/-- C2 (amended): every failure of the token `decryptData` call — it sits in
the inner try/catch — is reported as the unified 400 Invalid token; but a
failure to parse the opened bytes as the envelope happens outside the inner
try/catch (src/index.ts:146) and is reported as the 500
"Decryption failed or system error" response, not as the invalid-token
error. -/
theorem C2_failure_routing (secret : List Nat) :
    (∀ st token, token ≠ [] →
      (decryptData token (getMasterKey secret) = JsOutcome.errRaw ∨
        decryptData token (getMasterKey secret) = JsOutcome.errDecryptFailed) →
      retrieve secret st token = RetrieveResult.errInvalidToken) ∧
    (∀ st token payload, token ≠ [] →
      decryptData token (getMasterKey secret) = JsOutcome.ok payload →
      jsonParseIdKey payload = none →
      retrieve secret st token = RetrieveResult.errSystem) := by
  constructor
  · intro st token hne hd
    unfold retrieve
    rw [if_neg hne]
    rcases hd with hd | hd <;> simp only [hd]
  · intro st token payload hne hd hp
    unfold retrieve
    rw [if_neg hne]
    simp only [hd, hp]

set_option maxRecDepth 100000 in
/-- Witness for C2's amended statement: a newline-only token is routed to
Invalid token, and a token sealing the non-JSON payload `"x"` is routed to
the 500 system error. -/
theorem C2_witness :
    retrieve [115] [] [10] = RetrieveResult.errInvalidToken ∧
    retrieve [115] []
      (encryptData [120] (getMasterKey [115]) (List.replicate 12 0))
      = RetrieveResult.errSystem :=
  ⟨(C2_failure_routing [115]).1 [] [10] (by decide) (by decide),
    (C2_failure_routing [115]).2 [] _ (utf8Decode (utf8Encode [120])) (by decide)
      (decryptData_encryptData [120] (getMasterKey [115]) (List.replicate 12 0)
        (by decide) (by decide) (by decide) (by decide) (by decide))
      (by decide)⟩

set_option maxRecDepth 100000 in
/-- C2 counterexample: a token that opens correctly under the master key but
whose payload `"x"` is not valid JSON fails *before* the store fetch, yet
Retrieve reports the 500 system error, not the unified invalid-token error —
the claim that every pre-fetch failure is reported as the invalid-token
error is false. -/
theorem C2_counterexample :
    retrieve [115] [] (encryptData [120] (getMasterKey [115]) (List.replicate 12 0))
      = RetrieveResult.errSystem ∧
    RetrieveResult.errSystem ≠ RetrieveResult.errInvalidToken := by
  constructor
  · decide
  · decide

/-- C4: `Share` of an empty text, or of a text longer than 1 MiB (in UTF-16
code units), fails with the corresponding input error, returns no token, and
performs no store write: the store is unchanged and the number of store put
calls is 0. -/
theorem C4_input_rejected (secret : List Nat) (st : Store) (text : List Nat) (r : Rand)
    (now : Nat) (dbOk : Bool) (h : text = [] ∨ 1048576 < utf16Length text) :
    (share secret st text r now dbOk).store = st ∧
      (share secret st text r now dbOk).puts = 0 ∧
      ((share secret st text r now dbOk).res = ShareResp.errRequired ∨
        (share secret st text r now dbOk).res = ShareResp.errTooLarge) ∧
      ∀ t, (share secret st text r now dbOk).res ≠ ShareResp.token t := by
  unfold share
  by_cases he : text = []
  · rw [if_pos he]
    exact ⟨rfl, rfl, Or.inl rfl, fun t h2 => ShareResp.noConfusion h2⟩
  · rcases h with h | h
    · exact absurd h he
    · rw [if_neg he, if_pos h]
      exact ⟨rfl, rfl, Or.inr rfl, fun t h2 => ShareResp.noConfusion h2⟩

/-- Witness for C4 at the empty text. -/
theorem C4_witness :
    (share [115] [] []
        ⟨List.replicate 36 97, List.replicate 32 5,
          List.replicate 12 3, List.replicate 12 7⟩ 0 true).store = [] ∧
      (share [115] [] []
        ⟨List.replicate 36 97, List.replicate 32 5,
          List.replicate 12 3, List.replicate 12 7⟩ 0 true).puts = 0 ∧
      ((share [115] [] []
        ⟨List.replicate 36 97, List.replicate 32 5,
          List.replicate 12 3, List.replicate 12 7⟩ 0 true).res = ShareResp.errRequired ∨
        (share [115] [] []
        ⟨List.replicate 36 97, List.replicate 32 5,
          List.replicate 12 3, List.replicate 12 7⟩ 0 true).res = ShareResp.errTooLarge) ∧
      ∀ t, (share [115] [] []
        ⟨List.replicate 36 97, List.replicate 32 5,
          List.replicate 12 3, List.replicate 12 7⟩ 0 true).res ≠ ShareResp.token t :=
  C4_input_rejected [115] [] []
    ⟨List.replicate 36 97, List.replicate 32 5, List.replicate 12 3, List.replicate 12 7⟩
    0 true (Or.inl rfl)

/-- C6: when the store's put fails, `Share` of a valid input aborts with the
500 Database error response, the store is unchanged, exactly the one failed
put was attempted, and no token is returned (the token is only built after a
successful write). -/
theorem C6_storage_failure_aborts (secret : List Nat) (st : Store) (text : List Nat)
    (r : Rand) (now : Nat) (hne : text ≠ []) (hlen : utf16Length text ≤ 1048576) :
    share secret st text r now false = ⟨ShareResp.errDb, st, 1⟩ ∧
      ∀ t, (share secret st text r now false).res ≠ ShareResp.token t := by
  have he : share secret st text r now false = ⟨ShareResp.errDb, st, 1⟩ := by
    unfold share
    rw [if_neg hne, if_neg (by omega)]
    rfl
  refine ⟨he, fun t h2 => ?_⟩
  rw [he] at h2
  exact ShareResp.noConfusion h2

/-- Witness for C6 at the concrete text `"hi"`. -/
theorem C6_witness :
    share [115] [] [104, 105]
        ⟨List.replicate 36 97, List.replicate 32 5,
          List.replicate 12 3, List.replicate 12 7⟩ 0 false
      = ⟨ShareResp.errDb, [], 1⟩ ∧
      ∀ t, (share [115] [] [104, 105]
        ⟨List.replicate 36 97, List.replicate 32 5,
          List.replicate 12 3, List.replicate 12 7⟩ 0 false).res ≠ ShareResp.token t :=
  C6_storage_failure_aborts [115] [] [104, 105]
    ⟨List.replicate 36 97, List.replicate 32 5, List.replicate 12 3, List.replicate 12 7⟩
    0 (by decide) (by decide)

/-- C7 (amended): `decryptData` is total — either a plaintext or the uniform
decryption failure — on every blob containing at least one character the
regex `.` can match and every key `importKey` accepts (length 16/24/32); and
at the Retrieve level any token whose `decryptData` call fails (raw fault or
uniform failure alike) yields the unified Invalid token error, never an
unhandled fault.  (On the empty blob, `decryptData` itself instead throws a
raw `TypeError` — see the counterexample.) -/
theorem C7_decrypt_total :
    (∀ hexStr key, (∃ c ∈ hexStr, dotMatch c = true) →
      (key.length = 16 ∨ key.length = 24 ∨ key.length = 32) →
      ((∃ s, decryptData hexStr key = JsOutcome.ok s) ∨
        decryptData hexStr key = JsOutcome.errDecryptFailed)) ∧
    (∀ secret st token, token ≠ [] →
      (∀ s, decryptData token (getMasterKey secret) ≠ JsOutcome.ok s) →
      retrieve secret st token = RetrieveResult.errInvalidToken) := by
  constructor
  · intro hexStr key hne hkey
    have h1 := chunksAux_ne_nil hexStr hne
    unfold decryptData
    simp only [jsMatchChunks_of_ne_nil _ h1]
    rw [if_pos hkey]
    cases h2 : aesGcmDecrypt key (((chunksAux hexStr).map parseIntHexByte).take 12)
        (((chunksAux hexStr).map parseIntHexByte).drop 12) with
    | some pt =>
      refine Or.inl ⟨utf8Decode pt, ?_⟩
      simp only [h2]
    | none =>
      refine Or.inr ?_
      simp only [h2]
  · intro secret st token hne hfail
    unfold retrieve
    rw [if_neg hne]
    cases h2 : decryptData token (getMasterKey secret) with
    | ok s => exact absurd h2 (hfail s)
    | errDecryptFailed => rfl
    | errRaw => rfl

/-- Witness for C7's amended statement: the one-character blob `"a"` with a
32-byte key is total, and the newline-only token yields Invalid token. -/
theorem C7_witness :
    ((∃ s, decryptData [97] (List.replicate 32 0) = JsOutcome.ok s) ∨
      decryptData [97] (List.replicate 32 0) = JsOutcome.errDecryptFailed) ∧
    retrieve [115] [] [10] = RetrieveResult.errInvalidToken := by
  refine ⟨C7_decrypt_total.1 [97] (List.replicate 32 0) ⟨97, by decide, by decide⟩ (by decide),
    C7_decrypt_total.2 [115] [] [10] (by decide) ?_⟩
  intro s h
  have e : decryptData [10] (getMasterKey [115]) = JsOutcome.errRaw := by decide
  rw [e] at h
  exact JsOutcome.noConfusion h

/-- C7 counterexample: on the empty blob, `hexStr.match(/.{1,2}/g)` is
`null`, so the non-null assertion makes `decryptData` throw a raw
`TypeError` — not the single uniform decryption failure the claim
asserts for every hex-string blob. -/
theorem C7_counterexample :
    decryptData [] (List.replicate 32 0) = JsOutcome.errRaw ∧
    JsOutcome.errRaw ≠ JsOutcome.errDecryptFailed := by
  constructor
  · decide
  · decide

/-- C8: a token that opens under the master key and parses as an envelope
whose id has no record in the store makes Retrieve fail with the 404 Not
found error, which is distinct from the Invalid token error. -/
theorem C8_dangling_not_found (secret : List Nat) (st : Store) (id keyHex iv : List Nat)
    (hid : ∀ c ∈ id, c < 128 ∧ c ≠ 34) (hkh : ∀ c ∈ keyHex, c < 128 ∧ c ≠ 34)
    (hiv : iv.length = 12) (hivb : ByteList iv)
    (habsent : ∀ rec ∈ st, rec.id ≠ id) :
    retrieve secret st (encryptData (jsonStringifyIdKey id keyHex) (getMasterKey secret) iv)
      = RetrieveResult.errNotFound ∧
    RetrieveResult.errNotFound ≠ RetrieveResult.errInvalidToken := by
  refine ⟨?_, by decide⟩
  have hpa : ∀ c ∈ jsonStringifyIdKey id keyHex, c < 128 :=
    jsonStringify_ascii _ _ (fun c hc => (hid c hc).1) (fun c hc => (hkh c hc).1)
  have hps : ∀ c ∈ jsonStringifyIdKey id keyHex, c < 1114112 :=
    fun c hc => by have := hpa c hc; omega
  have htokne : encryptData (jsonStringifyIdKey id keyHex) (getMasterKey secret) iv ≠ [] :=
    encryptData_ne_nil _ _ _ (by intro h; rw [h] at hiv; simp at hiv)
  have e1 : decryptData (encryptData (jsonStringifyIdKey id keyHex)
      (getMasterKey secret) iv) (getMasterKey secret)
      = .ok (jsonStringifyIdKey id keyHex) :=
    decryptData_encryptData_text _ _ _ (getMasterKey_length secret)
      (getMasterKey_byteList secret) hiv hivb hps
  have e2 : jsonParseIdKey (jsonStringifyIdKey id keyHex) = some (id, keyHex) :=
    jsonParse_stringify _ _ (fun h => (hid 34 h).2 rfl) (fun h => (hkh 34 h).2 rfl)
  have e3 : storeGet st id = none := storeGet_none st id habsent
  unfold retrieve
  rw [if_neg htokne]
  simp only [e1, e2, e3]

/-- Witness for C8: a concrete envelope token over the empty store. -/
theorem C8_witness :
    retrieve [115] []
        (encryptData (jsonStringifyIdKey [97] [98, 99]) (getMasterKey [115])
          (List.replicate 12 0))
      = RetrieveResult.errNotFound ∧
    RetrieveResult.errNotFound ≠ RetrieveResult.errInvalidToken :=
  C8_dangling_not_found [115] [] [97] [98, 99] (List.replicate 12 0)
    (by decide) (by decide) (by decide) (by decide) (by simp)

/-- C10: the 1 MiB size check compares JS `String.length` — UTF-16 code
units of the decoded text — not the UTF-8 byte length of the request body:
any nonempty submission whose code-unit count is at most 2^20 is accepted
and stored, even when its UTF-8 byte length exceeds 2^20. -/
theorem C10_limit_counts_code_units (secret : List Nat) (st : Store) (text : List Nat)
    (r : Rand) (now : Nat) (hlen : utf16Length text ≤ 1048576)
    (hbytes : 1048576 < (utf8Encode text).length) :
    share secret st text r now true =
      ⟨ShareResp.token (encryptData (jsonStringifyIdKey r.uuid (buf2hex r.dataKey))
          (getMasterKey secret) r.ivT),
        st ++ [⟨r.uuid, encryptData text r.dataKey r.ivC, now⟩], 1⟩ := by
  have hne : text ≠ [] := by
    intro h
    rw [h, utf8Encode_nil] at hbytes
    simp at hbytes
  exact share_accepts secret st text r now hne hlen

theorem utf16Length_replicate (n c : Nat) :
    utf16Length (List.replicate n c) = n * utf16Len c := by
  induction n with
  | zero => simp [utf16Length_nil]
  | succ n ih =>
    rw [List.replicate_succ, utf16Length_cons, ih]
    ring

theorem utf8Encode_length_replicate (n c : Nat) :
    (utf8Encode (List.replicate n c)).length = n * (utf8Bytes c).length := by
  induction n with
  | zero => simp [utf8Encode_nil]
  | succ n ih =>
    rw [List.replicate_succ, utf8Encode_cons, List.length_append, ih]
    ring

/-- Witness for C10: 2^20 copies of `'€'` (U+20AC) — 2^20 code units, but
3·2^20 UTF-8 bytes — are accepted and stored. -/
theorem C10_witness :
    share [115] [] (List.replicate 1048576 8364)
        ⟨List.replicate 36 97, List.replicate 32 5,
          List.replicate 12 3, List.replicate 12 7⟩ 0 true =
      ⟨ShareResp.token (encryptData
          (jsonStringifyIdKey (List.replicate 36 97) (buf2hex (List.replicate 32 5)))
          (getMasterKey [115]) (List.replicate 12 7)),
        [] ++ [⟨List.replicate 36 97,
          encryptData (List.replicate 1048576 8364) (List.replicate 32 5)
            (List.replicate 12 3), 0⟩], 1⟩ :=
  C10_limit_counts_code_units [115] [] (List.replicate 1048576 8364)
    ⟨List.replicate 36 97, List.replicate 32 5, List.replicate 12 3, List.replicate 12 7⟩
    0
    (by rw [utf16Length_replicate]; norm_num [utf16Len])
    (by rw [utf8Encode_length_replicate]; norm_num [utf8Bytes])

/-! ## Reachable store states (C3) -/

theorem share_store_cases (secret : List Nat) (st : Store) (text : List Nat) (r : Rand)
    (now : Nat) (dbOk : Bool) :
    (share secret st text r now dbOk).store = st ∨
      (share secret st text r now dbOk).store
        = st ++ [⟨r.uuid, encryptData text r.dataKey r.ivC, now⟩] := by
  unfold share
  by_cases h1 : text = []
  · rw [if_pos h1]
    exact Or.inl rfl
  · rw [if_neg h1]
    by_cases h2 : 1048576 < utf16Length text
    · rw [if_pos h2]
      exact Or.inl rfl
    · rw [if_neg h2]
      cases dbOk with
      | false => exact Or.inl rfl
      | true => exact Or.inr rfl

/-- C3: in every reachable store state, every record consists of exactly an
id, a sealed content blob, and a timestamp: the content is the output of
sealing some plaintext under some 256-bit key and 96-bit nonce, and the id
is a 36-character UUID string.  No 256-bit key value — raw or hex-encoded —
can equal any stored field, so the store never holds a content key. -/
theorem C3_store_never_holds_key (secret : List Nat) (st : Store)
    (h : Reachable secret st) :
    ∀ rec ∈ st,
      (∃ text k iv, k.length = 32 ∧ iv.length = 12 ∧
        rec.content = encryptData text k iv) ∧
      rec.id.length = 36 ∧
      (∀ k2 : List Nat, k2.length = 32 →
        rec.id ≠ k2 ∧ rec.id ≠ buf2hex k2 ∧ rec.content ≠ k2 ∧ rec.content ≠ buf2hex k2) := by
  induction h with
  | empty => intro rec hrec; simp at hrec
  | step st text r now dbOk hr hre ih =>
    intro rec hrec
    rcases share_store_cases secret st text r now dbOk with he | he
    · rw [he] at hrec
      exact ih rec hrec
    · rw [he] at hrec
      rcases List.mem_append.mp hrec with hm | hm
      · exact ih rec hm
      · simp only [List.mem_singleton] at hm
        subst hm
        refine ⟨⟨text, r.dataKey, r.ivC, hr.2.1, hr.2.2.2.1, rfl⟩, hr.1.1, ?_⟩
        intro k2 hk2
        have hclen := encryptData_length text r.dataKey r.ivC
        rw [hr.2.1, hr.2.2.2.1] at hclen
        refine ⟨?_, ?_, ?_, ?_⟩ <;> intro he2
        · have hl := congrArg List.length he2
          rw [hr.1.1, hk2] at hl
          omega
        · have hl := congrArg List.length he2
          rw [hr.1.1, buf2hex_length, hk2] at hl
          omega
        · have hl := congrArg List.length he2
          rw [hclen, hk2] at hl
          omega
        · have hl := congrArg List.length he2
          rw [hclen, buf2hex_length, hk2] at hl
          omega

/-- Witness for C3: the store reached by one successful Share of `"hi"`. -/
theorem C3_witness :
    (∃ text k iv, k.length = 32 ∧ iv.length = 12 ∧
      (⟨List.replicate 36 97,
        encryptData [104, 105] (List.replicate 32 5) (List.replicate 12 3), 0⟩
        : ShareRec).content = encryptData text k iv) ∧
    (⟨List.replicate 36 97,
      encryptData [104, 105] (List.replicate 32 5) (List.replicate 12 3), 0⟩
      : ShareRec).id.length = 36 ∧
    (∀ k2 : List Nat, k2.length = 32 →
      (⟨List.replicate 36 97,
        encryptData [104, 105] (List.replicate 32 5) (List.replicate 12 3), 0⟩
        : ShareRec).id ≠ k2 ∧
      (⟨List.replicate 36 97,
        encryptData [104, 105] (List.replicate 32 5) (List.replicate 12 3), 0⟩
        : ShareRec).id ≠ buf2hex k2 ∧
      (⟨List.replicate 36 97,
        encryptData [104, 105] (List.replicate 32 5) (List.replicate 12 3), 0⟩
        : ShareRec).content ≠ k2 ∧
      (⟨List.replicate 36 97,
        encryptData [104, 105] (List.replicate 32 5) (List.replicate 12 3), 0⟩
        : ShareRec).content ≠ buf2hex k2) := by
  have hacc := share_accepts [115] [] [104, 105]
    ⟨List.replicate 36 97, List.replicate 32 5, List.replicate 12 3, List.replicate 12 7⟩
    0 (by decide) (by decide)
  refine C3_store_never_holds_key [115] _
    (Reachable.step [] [104, 105]
      ⟨List.replicate 36 97, List.replicate 32 5, List.replicate 12 3, List.replicate 12 7⟩
      0 true (by decide) Reachable.empty)
    ⟨List.replicate 36 97,
      encryptData [104, 105] (List.replicate 32 5) (List.replicate 12 3), 0⟩ ?_
  rw [hacc]
  simp

/-! ## Stored-content tamper detection (C5) -/

theorem five_append_inj (a1 b1 c1 d1 e1 a2 b2 c2 d2 e2 : List Nat)
    (ha : a1.length = a2.length) (hb : b1.length = b2.length)
    (hc : c1.length = c2.length) (hd : d1.length = d2.length)
    (h : a1 ++ (b1 ++ (c1 ++ (d1 ++ e1))) = a2 ++ (b2 ++ (c2 ++ (d2 ++ e2)))) :
    a1 = a2 ∧ b1 = b2 ∧ c1 = c2 ∧ d1 = d2 ∧ e1 = e2 := by
  obtain ⟨h1, h⟩ := List.append_inj h ha
  obtain ⟨h2, h⟩ := List.append_inj h hb
  obtain ⟨h3, h⟩ := List.append_inj h hc
  obtain ⟨h4, h5⟩ := List.append_inj h hd
  exact ⟨h1, h2, h3, h4, h5⟩

theorem set_ne_self (l : List Nat) (j b2 : Nat) (hj : j < l.length)
    (hb : b2 ≠ l.getD j 0) : l.set j b2 ≠ l := by
  intro h
  have h2 := congrArg (fun x => x.getD j 0) h
  simp only at h2
  rw [List.getD_eq_getElem _ 0 (by rw [List.length_set]; exact hj),
    List.getElem_set_self, List.getD_eq_getElem _ 0 hj] at h2
  rw [List.getD_eq_getElem _ 0 hj] at hb
  exact hb h2

theorem aesGcmDecrypt_set_none (key iv pt : List Nat) (hk : key.length = 32)
    (hiv : iv.length = 12) (j b2 : Nat)
    (hj : j < (iv ++ aesGcmEncrypt key iv pt).length)
    (hbne : b2 ≠ (iv ++ aesGcmEncrypt key iv pt).getD j 0) :
    aesGcmDecrypt key (((iv ++ aesGcmEncrypt key iv pt).set j b2).take 12)
      (((iv ++ aesGcmEncrypt key iv pt).set j b2).drop 12) = none := by
  have hctl : (ctFrom key iv 0 pt).length = pt.length := ctFrom_length key iv 0 pt
  have hB : iv ++ aesGcmEncrypt key iv pt
      = iv ++ (ctFrom key iv 0 pt ++ (key ++ (iv ++ ctFrom key iv 0 pt))) := by
    unfold aesGcmEncrypt
    simp [List.append_assoc]
  have hlenB : (iv ++ (ctFrom key iv 0 pt ++ (key ++ (iv ++ ctFrom key iv 0 pt)))).length
      = 56 + 2 * pt.length := by
    simp [List.length_append, hctl, hiv, hk]
    omega
  rw [hB] at hj hbne ⊢
  cases hres : aesGcmDecrypt key
      (((iv ++ (ctFrom key iv 0 pt ++ (key ++ (iv ++ ctFrom key iv 0 pt)))).set j b2).take 12)
      (((iv ++ (ctFrom key iv 0 pt ++ (key ++ (iv ++ ctFrom key iv 0 pt)))).set j b2).drop 12)
    with
  | none => rfl
  | some pt2 =>
    exfalso
    obtain ⟨hdata, _⟩ := aesGcmDecrypt_some _ _ _ _ hres
    set ct := ctFrom key iv 0 pt with hct
    set blob2 := (iv ++ (ct ++ (key ++ (iv ++ ct)))).set j b2 with hblob2
    have hjn : j < 56 + 2 * pt.length := by
      rw [hlenB] at hj
      exact hj
    have hlb2 : blob2.length = 56 + 2 * pt.length := by
      rw [hblob2, List.length_set]
      exact hlenB
    have hld : (blob2.drop 12).length = 44 + 2 * pt.length := by
      rw [List.length_drop, hlb2]
      omega
    have hL : ((blob2.drop 12).length - 44) / 2 = pt.length := by
      rw [hld]
      omega
    rw [hL] at hdata
    have hctl2 : ((blob2.drop 12).take pt.length).length = pt.length := by
      rw [List.length_take, hld]
      omega
    have hivl2 : (blob2.take 12).length = 12 := by
      rw [List.length_take, hlb2]
      omega
    have hE : blob2.take 12 ++ ((blob2.drop 12).take pt.length ++
        (key ++ (blob2.take 12 ++ (blob2.drop 12).take pt.length))) = blob2 := by
      conv_rhs => rw [← List.take_append_drop 12 blob2]
      conv_rhs => rw [hdata]
      simp [List.append_assoc]
    rcases lt_or_ge j 12 with h1 | h1
    · -- tamper in the leading nonce copy
      have hsplit : blob2 = iv.set j b2 ++ (ct ++ (key ++ (iv ++ ct))) := by
        rw [hblob2, List.set_append, if_pos (by omega)]
      have hEq : iv.set j b2 ++ (ct ++ (key ++ (iv ++ ct)))
          = blob2.take 12 ++ ((blob2.drop 12).take pt.length ++
            (key ++ (blob2.take 12 ++ (blob2.drop 12).take pt.length))) :=
        hsplit.symm.trans hE.symm
      obtain ⟨hA, hBc, hC, hD, hEc⟩ := five_append_inj _ _ _ _ _ _ _ _ _ _
        (by rw [List.length_set, hiv, hivl2]) (by rw [hctl, hctl2]) rfl
        (by rw [hiv, hivl2]) hEq
      rw [List.getD_append _ _ _ j (by omega)] at hbne
      exact set_ne_self iv j b2 (by omega) hbne (hA.trans hD.symm)
    rcases lt_or_ge j (12 + pt.length) with h2 | h2
    · -- tamper in the first ciphertext copy
      have hsplit : blob2 = iv ++ (ct.set (j - 12) b2 ++ (key ++ (iv ++ ct))) := by
        rw [hblob2, List.set_append, if_neg (by omega), hiv]
        rw [List.set_append, if_pos (by omega)]
      have hEq : iv ++ (ct.set (j - 12) b2 ++ (key ++ (iv ++ ct)))
          = blob2.take 12 ++ ((blob2.drop 12).take pt.length ++
            (key ++ (blob2.take 12 ++ (blob2.drop 12).take pt.length))) :=
        hsplit.symm.trans hE.symm
      obtain ⟨hA, hBc, hC, hD, hEc⟩ := five_append_inj _ _ _ _ _ _ _ _ _ _
        (by rw [hiv, hivl2]) (by rw [List.length_set, hctl, hctl2]) rfl
        (by rw [hiv, hivl2]) hEq
      rw [List.getD_append_right _ _ _ j (by omega), hiv,
        List.getD_append _ _ _ (j - 12) (by omega)] at hbne
      exact set_ne_self ct (j - 12) b2 (by omega) hbne (hBc.trans hEc.symm)
    rcases lt_or_ge j (44 + pt.length) with h3 | h3
    · -- tamper in the embedded key copy of the tag
      have hsplit : blob2 = iv ++ (ct ++ (key.set (j - 12 - pt.length) b2 ++ (iv ++ ct))) := by
        rw [hblob2, List.set_append, if_neg (by omega), hiv]
        rw [List.set_append, if_neg (by omega), hctl]
        rw [List.set_append, if_pos (by omega)]
      have hEq : iv ++ (ct ++ (key.set (j - 12 - pt.length) b2 ++ (iv ++ ct)))
          = blob2.take 12 ++ ((blob2.drop 12).take pt.length ++
            (key ++ (blob2.take 12 ++ (blob2.drop 12).take pt.length))) :=
        hsplit.symm.trans hE.symm
      obtain ⟨hA, hBc, hC, hD, hEc⟩ := five_append_inj _ _ _ _ _ _ _ _ _ _
        (by rw [hiv, hivl2]) (by rw [hctl, hctl2]) (by rw [List.length_set])
        (by rw [hiv, hivl2]) hEq
      rw [List.getD_append_right _ _ _ j (by omega), hiv,
        List.getD_append_right _ _ _ (j - 12) (by omega), hctl,
        List.getD_append _ _ _ (j - 12 - pt.length) (by omega)] at hbne
      exact set_ne_self key (j - 12 - pt.length) b2 (by omega) hbne hC
    rcases lt_or_ge j (56 + pt.length) with h4 | h4
    · -- tamper in the embedded nonce copy of the tag
      have hsplit : blob2
          = iv ++ (ct ++ (key ++ (iv.set (j - 44 - pt.length) b2 ++ ct))) := by
        rw [hblob2, List.set_append, if_neg (by omega), hiv]
        rw [List.set_append, if_neg (by omega), hctl]
        rw [List.set_append, if_neg (by omega), hk]
        rw [List.set_append, if_pos (by omega)]
        rw [show j - 12 - pt.length - 32 = j - 44 - pt.length by omega]
      have hEq : iv ++ (ct ++ (key ++ (iv.set (j - 44 - pt.length) b2 ++ ct)))
          = blob2.take 12 ++ ((blob2.drop 12).take pt.length ++
            (key ++ (blob2.take 12 ++ (blob2.drop 12).take pt.length))) :=
        hsplit.symm.trans hE.symm
      obtain ⟨hA, hBc, hC, hD, hEc⟩ := five_append_inj _ _ _ _ _ _ _ _ _ _
        (by rw [hiv, hivl2]) (by rw [hctl, hctl2]) rfl
        (by rw [List.length_set, hiv, hivl2]) hEq
      rw [List.getD_append_right _ _ _ j (by omega), hiv,
        List.getD_append_right _ _ _ (j - 12) (by omega), hctl,
        List.getD_append_right _ _ _ (j - 12 - pt.length) (by omega), hk,
        List.getD_append _ _ _ (j - 12 - pt.length - 32) (by omega)] at hbne
      rw [show j - 12 - pt.length - 32 = j - 44 - pt.length by omega] at hbne
      exact set_ne_self iv (j - 44 - pt.length) b2 (by omega) hbne (hD.trans hA.symm)
    · -- tamper in the embedded ciphertext copy of the tag
      have hsplit : blob2
          = iv ++ (ct ++ (key ++ (iv ++ ct.set (j - 56 - pt.length) b2))) := by
        rw [hblob2, List.set_append, if_neg (by omega), hiv]
        rw [List.set_append, if_neg (by omega), hctl]
        rw [List.set_append, if_neg (by omega), hk]
        rw [List.set_append, if_neg (by omega), hiv]
        rw [show j - 12 - pt.length - 32 - 12 = j - 56 - pt.length by omega]
      have hEq : iv ++ (ct ++ (key ++ (iv ++ ct.set (j - 56 - pt.length) b2)))
          = blob2.take 12 ++ ((blob2.drop 12).take pt.length ++
            (key ++ (blob2.take 12 ++ (blob2.drop 12).take pt.length))) :=
        hsplit.symm.trans hE.symm
      obtain ⟨hA, hBc, hC, hD, hEc⟩ := five_append_inj _ _ _ _ _ _ _ _ _ _
        (by rw [hiv, hivl2]) (by rw [hctl, hctl2]) rfl
        (by rw [hiv, hivl2]) hEq
      rw [List.getD_append_right _ _ _ j (by omega), hiv,
        List.getD_append_right _ _ _ (j - 12) (by omega), hctl,
        List.getD_append_right _ _ _ (j - 12 - pt.length) (by omega), hk,
        List.getD_append_right _ _ _ (j - 12 - pt.length - 32) (by omega), hiv] at hbne
      rw [show j - 12 - pt.length - 32 - 12 = j - 56 - pt.length by omega] at hbne
      exact set_ne_self ct (j - 56 - pt.length) b2 (by omega) hbne (hEc.trans hBc.symm)

theorem byteList_set (l : List Nat) (h : ByteList l) (j b2 : Nat) (hb : b2 < 256) :
    ByteList (l.set j b2) := by
  intro x hx
  rcases List.mem_or_eq_of_mem_set hx with hx2 | hx2
  · exact h x hx2
  · omega

theorem decryptData_buf2hex (bs key : List Nat) (hbs : ByteList bs) (hne : bs ≠ [])
    (hk : key.length = 32) :
    decryptData (buf2hex bs) key =
      match aesGcmDecrypt key (bs.take 12) (bs.drop 12) with
      | some pt => JsOutcome.ok (utf8Decode pt)
      | none => JsOutcome.errDecryptFailed := by
  unfold decryptData
  obtain ⟨chs, hchs, hmap⟩ := hexParse_buf2hex bs hbs hne
  rw [hchs]
  show (if key.length = 16 ∨ key.length = 24 ∨ key.length = 32 then _ else _) = _
  rw [if_pos (by omega)]
  rw [hmap]

/-- Evaluation of Retrieve on the token of a given Share call, up to the
store lookup and the content decryption. -/
theorem retrieve_token_steps (secret : List Nat) (st : Store) (r : Rand)
    (hr : r.Valid) :
    retrieve secret st (tokenOf secret r) =
      match storeGet st r.uuid with
      | none => RetrieveResult.errNotFound
      | some content =>
        match decryptData content r.dataKey with
        | JsOutcome.ok text2 => RetrieveResult.ok text2
        | JsOutcome.errDecryptFailed => RetrieveResult.errSystem
        | JsOutcome.errRaw => RetrieveResult.errSystem := by
  obtain ⟨hu, hkl, hkb, hcl, hcb, htl, htb⟩ := hr
  have hpa : ∀ c ∈ jsonStringifyIdKey r.uuid (buf2hex r.dataKey), c < 128 :=
    jsonStringify_ascii _ _ (uuid_ascii _ hu) (buf2hex_ascii _ hkb)
  have hps : ∀ c ∈ jsonStringifyIdKey r.uuid (buf2hex r.dataKey), c < 1114112 :=
    fun c hc => by have := hpa c hc; omega
  have htokne : tokenOf secret r ≠ [] :=
    encryptData_ne_nil _ _ _ (by intro h; rw [h] at htl; simp at htl)
  have e1 : decryptData (tokenOf secret r) (getMasterKey secret)
      = JsOutcome.ok (jsonStringifyIdKey r.uuid (buf2hex r.dataKey)) :=
    decryptData_encryptData_text _ _ _ (getMasterKey_length secret)
      (getMasterKey_byteList secret) htl htb hps
  have e2 : jsonParseIdKey (jsonStringifyIdKey r.uuid (buf2hex r.dataKey))
      = some (r.uuid, buf2hex r.dataKey) :=
    jsonParse_stringify _ _ (uuid_no_quote _ hu) (buf2hex_no_quote _ hkb)
  have hkne : r.dataKey ≠ [] := by intro h; rw [h] at hkl; simp at hkl
  have e4 : jsMatchChunks (buf2hex r.dataKey)
      = some (r.dataKey.map (fun b => [hexChar (b / 16), hexChar (b % 16)])) :=
    jsMatchChunks_buf2hex _ hkb hkne
  have e5 : (r.dataKey.map (fun b => [hexChar (b / 16), hexChar (b % 16)])).map
      parseIntHexByte = r.dataKey := map_parseInt_hexpairs _ hkb
  unfold retrieve
  rw [if_neg htokne]
  simp only [e1, e2, e4, e5]

/-- C5: with a valid token in hand, changing any byte of the persisted
sealed-content blob to any other value makes Retrieve fail with the 500
"Decryption failed or system error" response (the decryption-error path of
the outer catch), which is distinct from the invalid-token error; tampered
or partial plaintext is never returned. -/
theorem C5_tamper_detected (secret text : List Nat) (r : Rand) (now : Nat)
    (j b2 : Nat) (hr : r.Valid) (hj : j < (sealBlob text r).length) (hb : b2 < 256)
    (hbne : b2 ≠ (sealBlob text r).getD j 0) :
    retrieve secret [⟨r.uuid, buf2hex ((sealBlob text r).set j b2), now⟩]
        (tokenOf secret r) = RetrieveResult.errSystem ∧
      RetrieveResult.errSystem ≠ RetrieveResult.errInvalidToken ∧
      ∀ s, RetrieveResult.errSystem ≠ RetrieveResult.ok s := by
  refine ⟨?_, by decide, fun s h => RetrieveResult.noConfusion h⟩
  obtain ⟨hu, hkl, hkb, hcl, hcb, htl, htb⟩ := hr
  have hblB : ByteList (sealBlob text r) :=
    encryptData_blob_byteList text r.dataKey r.ivC hkb hcb
  have hbl2 : ByteList ((sealBlob text r).set j b2) := byteList_set _ hblB j b2 hb
  have hlsb : (sealBlob text r).length = 56 + 2 * (utf8Encode text).length := by
    unfold sealBlob
    rw [List.length_append, aesGcmEncrypt_length, hcl, hkl]
    omega
  have hne2 : (sealBlob text r).set j b2 ≠ [] := by
    intro h0
    have hl0 := congrArg List.length h0
    rw [List.length_set, hlsb] at hl0
    simp at hl0
  have e3 : storeGet [⟨r.uuid, buf2hex ((sealBlob text r).set j b2), now⟩] r.uuid
      = some (buf2hex ((sealBlob text r).set j b2)) := by
    unfold storeGet
    rw [List.find?_cons_of_pos _ (by simp)]
  unfold sealBlob at hj hbne
  have e6 : decryptData (buf2hex ((sealBlob text r).set j b2)) r.dataKey
      = JsOutcome.errDecryptFailed := by
    rw [decryptData_buf2hex _ _ hbl2 hne2 hkl]
    unfold sealBlob
    rw [aesGcmDecrypt_set_none r.dataKey r.ivC (utf8Encode text) hkl hcl j b2 hj hbne]
  rw [retrieve_token_steps secret _ r ⟨hu, hkl, hkb, hcl, hcb, htl, htb⟩]
  simp only [e3, e6]

set_option maxRecDepth 400000 in
/-- Witness for C5: the concrete text `"hi"`, concrete draws, and the first
blob byte replaced by 255. -/
theorem C5_witness :
    retrieve [115]
        [⟨List.replicate 36 97,
          buf2hex ((sealBlob [104, 105]
            ⟨List.replicate 36 97, List.replicate 32 5,
              List.replicate 12 3, List.replicate 12 7⟩).set 0 255), 0⟩]
        (tokenOf [115]
          ⟨List.replicate 36 97, List.replicate 32 5,
            List.replicate 12 3, List.replicate 12 7⟩) = RetrieveResult.errSystem ∧
      RetrieveResult.errSystem ≠ RetrieveResult.errInvalidToken ∧
      ∀ s, RetrieveResult.errSystem ≠ RetrieveResult.ok s :=
  C5_tamper_detected [115] [104, 105]
    ⟨List.replicate 36 97, List.replicate 32 5, List.replicate 12 3, List.replicate 12 7⟩
    0 0 255 (by decide) (by decide) (by decide) (by decide)

/-! ## Non-determinism and uniqueness (C9) -/

theorem jsonStringify_length (id key : List Nat) :
    (jsonStringifyIdKey id key).length = id.length + key.length + 18 := by
  unfold jsonStringifyIdKey jsonPre jsonMid jsonSuf
  simp [List.length_append]
  omega

theorem jsonStringify_inj_id (id1 id2 key1 key2 : List Nat) (hl : id1.length = id2.length)
    (h : jsonStringifyIdKey id1 key1 = jsonStringifyIdKey id2 key2) : id1 = id2 := by
  unfold jsonStringifyIdKey at h
  simp only [List.append_assoc] at h
  obtain ⟨-, h⟩ := List.append_inj h rfl
  exact (List.append_inj h hl).1

theorem tokenOf_inj (secret : List Nat) (r1 r2 : Rand) (h1 : r1.Valid) (h2 : r2.Valid)
    (hid : r1.uuid ≠ r2.uuid) : tokenOf secret r1 ≠ tokenOf secret r2 := by
  intro heq
  obtain ⟨hu1, hkl1, hkb1, hcl1, hcb1, htl1, htb1⟩ := h1
  obtain ⟨hu2, hkl2, hkb2, hcl2, hcb2, htl2, htb2⟩ := h2
  have hpa1 : ∀ c ∈ jsonStringifyIdKey r1.uuid (buf2hex r1.dataKey), c < 128 :=
    jsonStringify_ascii _ _ (uuid_ascii _ hu1) (buf2hex_ascii _ hkb1)
  have hpa2 : ∀ c ∈ jsonStringifyIdKey r2.uuid (buf2hex r2.dataKey), c < 128 :=
    jsonStringify_ascii _ _ (uuid_ascii _ hu2) (buf2hex_ascii _ hkb2)
  have he1 : utf8Encode (jsonStringifyIdKey r1.uuid (buf2hex r1.dataKey))
      = jsonStringifyIdKey r1.uuid (buf2hex r1.dataKey) := utf8Encode_ascii _ hpa1
  have he2 : utf8Encode (jsonStringifyIdKey r2.uuid (buf2hex r2.dataKey))
      = jsonStringifyIdKey r2.uuid (buf2hex r2.dataKey) := utf8Encode_ascii _ hpa2
  have hpl : (utf8Encode (jsonStringifyIdKey r1.uuid (buf2hex r1.dataKey))).length
      = (utf8Encode (jsonStringifyIdKey r2.uuid (buf2hex r2.dataKey))).length := by
    rw [he1, he2, jsonStringify_length, jsonStringify_length, hu1.1, hu2.1,
      buf2hex_length, buf2hex_length, hkl1, hkl2]
  set mk := getMasterKey secret with hmk
  have hmkl : mk.length = 32 := getMasterKey_length secret
  have hmkb : ByteList mk := getMasterKey_byteList secret
  unfold tokenOf encryptData at heq
  have hbl1 : ByteList (r1.ivT ++ aesGcmEncrypt mk r1.ivT
      (utf8Encode (jsonStringifyIdKey r1.uuid (buf2hex r1.dataKey)))) :=
    encryptData_blob_byteList _ _ _ hmkb htb1
  have hbl2 : ByteList (r2.ivT ++ aesGcmEncrypt mk r2.ivT
      (utf8Encode (jsonStringifyIdKey r2.uuid (buf2hex r2.dataKey)))) :=
    encryptData_blob_byteList _ _ _ hmkb htb2
  have hblobs := buf2hex_inj _ _ hbl1 hbl2 heq
  set pt1 := utf8Encode (jsonStringifyIdKey r1.uuid (buf2hex r1.dataKey)) with hpt1
  set pt2 := utf8Encode (jsonStringifyIdKey r2.uuid (buf2hex r2.dataKey)) with hpt2
  have hctl1 : (ctFrom mk r1.ivT 0 pt1).length = pt1.length := ctFrom_length _ _ _ _
  have hctl2 : (ctFrom mk r2.ivT 0 pt2).length = pt2.length := ctFrom_length _ _ _ _
  have hB1 : r1.ivT ++ aesGcmEncrypt mk r1.ivT pt1
      = r1.ivT ++ (ctFrom mk r1.ivT 0 pt1 ++ (mk ++ (r1.ivT ++ ctFrom mk r1.ivT 0 pt1))) := by
    unfold aesGcmEncrypt
    simp [List.append_assoc]
  have hB2 : r2.ivT ++ aesGcmEncrypt mk r2.ivT pt2
      = r2.ivT ++ (ctFrom mk r2.ivT 0 pt2 ++ (mk ++ (r2.ivT ++ ctFrom mk r2.ivT 0 pt2))) := by
    unfold aesGcmEncrypt
    simp [List.append_assoc]
  rw [hB1, hB2] at hblobs
  obtain ⟨hiv, hctEq, -, -, -⟩ := five_append_inj _ _ _ _ _ _ _ _ _ _
    (by rw [htl1, htl2]) (by rw [hctl1, hctl2, hpl]) rfl (by rw [htl1, htl2]) hblobs
  have hptb1 : ByteList pt1 := utf8Encode_byteList _ (fun c hc => by
    have := hpa1 c hc
    omega)
  have hptb2 : ByteList pt2 := utf8Encode_byteList _ (fun c hc => by
    have := hpa2 c hc
    omega)
  have hpt : pt1 = pt2 := by
    have hp1 := ptFrom_ctFrom mk r1.ivT 0 pt1 hptb1
    have hp2 := ptFrom_ctFrom mk r2.ivT 0 pt2 hptb2
    rw [← hp1, ← hp2, hctEq, hiv]
  have hpay : jsonStringifyIdKey r1.uuid (buf2hex r1.dataKey)
      = jsonStringifyIdKey r2.uuid (buf2hex r2.dataKey) :=
    he1.symm.trans (hpt.trans he2)
  exact hid (jsonStringify_inj_id _ _ _ _ (by rw [hu1.1, hu2.1]) hpay)

/-- C9: two Share calls on the identical text, with independent random draws
(hence distinct UUIDs), yield two distinct identifiers and two distinct
tokens, and each token independently round-trips against the resulting
store. -/
theorem C9_two_shares_distinct (secret text : List Nat) (r1 r2 : Rand) (now1 now2 : Nat)
    (h1 : r1.Valid) (h2 : r2.Valid) (ht : ValidText text) (hne : text ≠ [])
    (hlen : utf16Length text ≤ 1048576) (hid : r1.uuid ≠ r2.uuid) :
    share secret [] text r1 now1 true
      = ⟨ShareResp.token (tokenOf secret r1),
          [] ++ [⟨r1.uuid, encryptData text r1.dataKey r1.ivC, now1⟩], 1⟩ ∧
    share secret ([] ++ [⟨r1.uuid, encryptData text r1.dataKey r1.ivC, now1⟩]) text r2 now2 true
      = ⟨ShareResp.token (tokenOf secret r2),
          [] ++ [⟨r1.uuid, encryptData text r1.dataKey r1.ivC, now1⟩]
            ++ [⟨r2.uuid, encryptData text r2.dataKey r2.ivC, now2⟩], 1⟩ ∧
    r1.uuid ≠ r2.uuid ∧
    tokenOf secret r1 ≠ tokenOf secret r2 ∧
    retrieve secret
        ([] ++ [⟨r1.uuid, encryptData text r1.dataKey r1.ivC, now1⟩]
          ++ [⟨r2.uuid, encryptData text r2.dataKey r2.ivC, now2⟩])
        (tokenOf secret r1) = RetrieveResult.ok text ∧
    retrieve secret
        ([] ++ [⟨r1.uuid, encryptData text r1.dataKey r1.ivC, now1⟩]
          ++ [⟨r2.uuid, encryptData text r2.dataKey r2.ivC, now2⟩])
        (tokenOf secret r2) = RetrieveResult.ok text := by
  refine ⟨share_accepts secret [] text r1 now1 hne hlen,
    share_accepts secret _ text r2 now2 hne hlen, hid,
    tokenOf_inj secret r1 r2 h1 h2 hid, ?_, ?_⟩
  · rw [retrieve_token_steps secret _ r1 h1]
    have hget : storeGet
        ([] ++ [⟨r1.uuid, encryptData text r1.dataKey r1.ivC, now1⟩]
          ++ [⟨r2.uuid, encryptData text r2.dataKey r2.ivC, now2⟩]) r1.uuid
        = some (encryptData text r1.dataKey r1.ivC) := by
      unfold storeGet
      rw [List.nil_append]
      rw [show ([⟨r1.uuid, encryptData text r1.dataKey r1.ivC, now1⟩]
          ++ [⟨r2.uuid, encryptData text r2.dataKey r2.ivC, now2⟩] : Store)
        = ⟨r1.uuid, encryptData text r1.dataKey r1.ivC, now1⟩
          :: [⟨r2.uuid, encryptData text r2.dataKey r2.ivC, now2⟩] from rfl]
      rw [List.find?_cons_of_pos _ (by simp)]
    simp only [hget, decryptData_encryptData_text _ _ _ h1.2.1 h1.2.2.1 h1.2.2.2.1
      h1.2.2.2.2.1 (fun c hc => (ht c hc).1)]
  · rw [retrieve_token_steps secret _ r2 h2]
    have hget : storeGet
        ([] ++ [⟨r1.uuid, encryptData text r1.dataKey r1.ivC, now1⟩]
          ++ [⟨r2.uuid, encryptData text r2.dataKey r2.ivC, now2⟩]) r2.uuid
        = some (encryptData text r2.dataKey r2.ivC) := by
      unfold storeGet
      rw [List.nil_append]
      rw [show ([⟨r1.uuid, encryptData text r1.dataKey r1.ivC, now1⟩]
          ++ [⟨r2.uuid, encryptData text r2.dataKey r2.ivC, now2⟩] : Store)
        = ⟨r1.uuid, encryptData text r1.dataKey r1.ivC, now1⟩
          :: [⟨r2.uuid, encryptData text r2.dataKey r2.ivC, now2⟩] from rfl]
      rw [List.find?_cons_of_neg _ (by simp [hid])]
      rw [List.find?_cons_of_pos _ (by simp)]
    simp only [hget, decryptData_encryptData_text _ _ _ h2.2.1 h2.2.2.1 h2.2.2.2.1
      h2.2.2.2.2.1 (fun c hc => (ht c hc).1)]

/-- Witness for C9 at the concrete text `"hi"` and two concrete draws with
distinct UUIDs. -/
theorem C9_witness :
    share [115] [] [104, 105]
        ⟨List.replicate 36 97, List.replicate 32 5, List.replicate 12 3, List.replicate 12 7⟩
        0 true
      = ⟨ShareResp.token (tokenOf [115]
          ⟨List.replicate 36 97, List.replicate 32 5, List.replicate 12 3,
            List.replicate 12 7⟩),
          [] ++ [⟨List.replicate 36 97,
            encryptData [104, 105] (List.replicate 32 5) (List.replicate 12 3), 0⟩], 1⟩ ∧
    share [115] ([] ++ [⟨List.replicate 36 97,
          encryptData [104, 105] (List.replicate 32 5) (List.replicate 12 3), 0⟩])
        [104, 105]
        ⟨List.replicate 36 98, List.replicate 32 6, List.replicate 12 4, List.replicate 12 8⟩
        1 true
      = ⟨ShareResp.token (tokenOf [115]
          ⟨List.replicate 36 98, List.replicate 32 6, List.replicate 12 4,
            List.replicate 12 8⟩),
          [] ++ [⟨List.replicate 36 97,
            encryptData [104, 105] (List.replicate 32 5) (List.replicate 12 3), 0⟩]
            ++ [⟨List.replicate 36 98,
              encryptData [104, 105] (List.replicate 32 6) (List.replicate 12 4), 1⟩], 1⟩ ∧
    (List.replicate 36 97 : List Nat) ≠ List.replicate 36 98 ∧
    tokenOf [115]
        ⟨List.replicate 36 97, List.replicate 32 5, List.replicate 12 3, List.replicate 12 7⟩
      ≠ tokenOf [115]
        ⟨List.replicate 36 98, List.replicate 32 6, List.replicate 12 4, List.replicate 12 8⟩ ∧
    retrieve [115]
        ([] ++ [⟨List.replicate 36 97,
          encryptData [104, 105] (List.replicate 32 5) (List.replicate 12 3), 0⟩]
          ++ [⟨List.replicate 36 98,
            encryptData [104, 105] (List.replicate 32 6) (List.replicate 12 4), 1⟩])
        (tokenOf [115]
          ⟨List.replicate 36 97, List.replicate 32 5, List.replicate 12 3,
            List.replicate 12 7⟩) = RetrieveResult.ok [104, 105] ∧
    retrieve [115]
        ([] ++ [⟨List.replicate 36 97,
          encryptData [104, 105] (List.replicate 32 5) (List.replicate 12 3), 0⟩]
          ++ [⟨List.replicate 36 98,
            encryptData [104, 105] (List.replicate 32 6) (List.replicate 12 4), 1⟩])
        (tokenOf [115]
          ⟨List.replicate 36 98, List.replicate 32 6, List.replicate 12 4,
            List.replicate 12 8⟩) = RetrieveResult.ok [104, 105] :=
  C9_two_shares_distinct [115] [104, 105]
    ⟨List.replicate 36 97, List.replicate 32 5, List.replicate 12 3, List.replicate 12 7⟩
    ⟨List.replicate 36 98, List.replicate 32 6, List.replicate 12 4, List.replicate 12 8⟩
    0 1 (by decide) (by decide) (by decide) (by decide) (by decide) (by decide)

end WorkersShare
